import Mathlib

/-!
Verification development for the corp-search multi-agent orchestration engine.

This file gives a shallow embedding, in Lean 4, of the parts of the engine
that the specification talks about, and proves (or refutes) the specified
properties against that embedding.  Each definition is translated from one
Python source location, named in its doc comment:

* `src/model/context/models.py` and `src/model/context/context.py` —
  the plan, the per-step execution state, and the `GraphContext` API;
* `src/graph/nodes/reasoner.py` — the reasoner node with its retry handling;
* `src/agents/ReasonerAgent/operations/decide_next_stage.py` — the
  deterministic hypothesis-selection override;
* `src/agents/base.py` and `src/model/agent_result.py` — the dispatcher
  (`BaseAgent.execute_operation`) and the result envelope;
* `src/agents/BooksLibraryAgent/operations/list_books.py` — a concrete
  operation with a `required` field in its `params_schema`;
* `src/services/llm_service/model/response.py` — `LLMResponse.from_raw`;
* `src/graph/context.py` and `src/graph/nodes/synthesizer.py` — the legacy
  context model and the synthesizer node with its fallback.

Modelling conventions: Python `dict`s are insertion-ordered association
lists, `None` is either `Option.none` or the `Value.none` constructor of the
dynamic-value type (for `Any`-typed slots), numeric confidences are rationals,
and wall-clock timestamps are elided (history events keep their `type` and
`step_id` payload only).  Exceptions crossing a function boundary are
modelled with `Except`.
-/

namespace CorpSearch

/-- Dynamic Python value, for `Any`-typed payloads (operation outputs,
parameters, memory entries).  `Value.none` is Python `None`. -/
inductive Value where
  | none : Value
  | bool (b : Bool) : Value
  | int (n : Int) : Value
  | str (s : String) : Value
  | list (items : List Value) : Value
  | dict (entries : List (String × Value)) : Value

/-- Lookup in an insertion-ordered association list (Python `dict.get`). -/
def alistGet (entries : List (String × Value)) (key : String) : Option Value :=
  match entries with
  | [] => Option.none
  | (k, v) :: rest => if k = key then some v else alistGet rest key

/-- Python truthiness for `Value` (`bool(v)`), used by `or`-defaulting code. -/
def Value.truthy : Value → Bool
  | Value.none => false
  | Value.bool b => b
  | Value.int n => n ≠ 0
  | Value.str s => s ≠ ""
  | Value.list items => !items.isEmpty
  | Value.dict entries => !entries.isEmpty

/-- The three per-step stages of `models.py`: the `expected_stages` and
`completed_stages` dicts both carry exactly the keys `data_fetch`,
`processing`, `validation` (their `default_factory`), so they are embedded
as a record of three booleans. -/
structure StageMap where
  dataFetch : Bool := false
  processing : Bool := false
  validation : Bool := false
deriving DecidableEq

/-- Reading `stages_dict.get(stage, False)` for a stage name. -/
def StageMap.read (m : StageMap) (stage : String) : Bool :=
  if stage = "data_fetch" then m.dataFetch
  else if stage = "processing" then m.processing
  else if stage = "validation" then m.validation
  else false

/-- Writing `stages_dict[stage] = b`, guarded by `if stage in stages_dict`
as in `GraphContext.mark_stage_completed`: unknown keys are a no-op. -/
def StageMap.write (m : StageMap) (stage : String) (b : Bool) : StageMap :=
  if stage = "data_fetch" then { m with dataFetch := b }
  else if stage = "processing" then { m with processing := b }
  else if stage = "validation" then { m with validation := b }
  else m

/-- Python `any(stages_dict.values())`. -/
def StageMap.anyTrue (m : StageMap) : Bool :=
  m.dataFetch || m.processing || m.validation

/-- The loop of `is_step_fully_completed`: every expected stage is completed
(`for stage, required in expected.items(): if required and not completed.get(stage, False): return False`). -/
def StageMap.covers (expected completed : StageMap) : Bool :=
  (!expected.dataFetch || completed.dataFetch) &&
  (!expected.processing || completed.processing) &&
  (!expected.validation || completed.validation)

/-- A `StageMap` with every stage reset to `False` (the retry reset loop of
`reasoner_node`). -/
def StageMap.allFalse : StageMap := { dataFetch := false, processing := false, validation := false }

/-- One hypothesis of a reasoner decision (`decide_next_stage.py`).  The
`confidence` key may be absent from the dict, hence the `Option`; the code
reads it with `h.get("confidence", 0)`. -/
structure Hypothesis where
  agent : String
  operation : String
  params : Value := Value.none
  confidence : Option ℚ := Option.none

/-- Reading `h.get("confidence", 0)`. -/
def Hypothesis.conf (h : Hypothesis) : ℚ := h.confidence.getD 0

/-- The nested `postprocessing` / `validation` objects of a decision. -/
structure StageIntent where
  needed : Bool
  confidence : ℚ := 0
deriving DecidableEq

/-- The `final_decision` object of a decision; `selected_hypothesis` may be
absent (`final_decision.get("selected_hypothesis", 0)`). -/
structure FinalDecision where
  selectedHypothesis : Option Int := Option.none
  explanation : String := ""
deriving DecidableEq

/-- A reasoner decision dict.  Every field is optional because the Python
object is a plain dict; `Option.none` models key absence. -/
structure Decision where
  hypotheses : Option (List Hypothesis) := Option.none
  finalDecision : Option FinalDecision := Option.none
  postprocessing : Option StageIntent := Option.none
  validation : Option StageIntent := Option.none
  needsPostprocessing : Option Bool := Option.none
  needsValidation : Option Bool := Option.none

/-- A validation-result dict (`step.validation_result`); `is_valid` read via
`validation_result.get("is_valid", False)`. -/
structure ValidationRecord where
  isValid : Option Bool := Option.none
  confidence : ℚ := 0
deriving DecidableEq

/-- SubQuestion of `models.py`: one node of the plan DAG. -/
structure SubQuestion where
  id : String
  text : String
  dependsOn : List String := []
deriving DecidableEq

/-- Plan of `models.py`: the ordered list of sub-questions. -/
structure Plan where
  subquestions : List SubQuestion := []
deriving DecidableEq

/-- StepExecutionState of `models.py` (the fields the verified API touches;
`created_at`, `stage`, `current_call` and the confidence mirrors are elided).
`raw_output` is `Optional[Any]`, embedded as `Value` with `Value.none` for
Python `None`. -/
structure StepExecutionState where
  id : String
  text : String
  completed : Bool := false
  error : Option String := Option.none
  retryCount : Nat := 0
  decision : Option Decision := Option.none
  hypothesis : Option Hypothesis := Option.none
  expectedStages : StageMap := {}
  completedStages : StageMap := {}
  rawOutput : Value := Value.none
  validationResult : Option ValidationRecord := Option.none
  agentCalls : List Value := []

/-- A history event (`append_history_event`); the auto-stamped wall-clock
timestamp is elided, the `type` tag and the optional `step_id` are kept. -/
structure HistoryEvent where
  type : String
  stepId : Option String := Option.none
deriving DecidableEq

/-- GraphContext of `src/model/context/context.py`: `question`, the plan, and
the `execution` sub-object (`current_step_id`, the insertion-ordered `steps`
dict, `history`).  The free-form `memory` map is not needed by the verified
methods and is elided. -/
structure GraphContext where
  question : String := ""
  plan : Plan := {}
  currentStepId : Option String := Option.none
  steps : List (String × StepExecutionState) := []
  history : List HistoryEvent := []

/-- Lookup in the `execution.steps` dict. -/
def stepsGet (steps : List (String × StepExecutionState)) (sid : String) :
    Option StepExecutionState :=
  match steps with
  | [] => Option.none
  | (k, v) :: rest => if k = sid then some v else stepsGet rest sid

/-- In-place mutation of one entry of the `steps` dict (Python mutates the
`StepExecutionState` object through the reference returned by lookup; dict
keys are unique, so rewriting every matching key is the same update). -/
def stepsUpdate (steps : List (String × StepExecutionState)) (sid : String)
    (f : StepExecutionState → StepExecutionState) :
    List (String × StepExecutionState) :=
  match steps with
  | [] => []
  | (k, v) :: rest =>
      if k = sid then (k, f v) :: rest
      else (k, v) :: stepsUpdate rest sid f

/-- GraphContext._get_subquestion_by_id. -/
def GraphContext.getSubquestionById (ctx : GraphContext) (sid : String) :
    Option SubQuestion :=
  ctx.plan.subquestions.find? (fun sq => sq.id = sid)

/-- GraphContext.get_execution_step. -/
def GraphContext.getExecutionStep (ctx : GraphContext) (sid : String) :
    Option StepExecutionState :=
  stepsGet ctx.steps sid

/-- GraphContext.ensure_execution_step: create the state on first reference,
with the sub-question text when the id is in the plan, else the id itself. -/
def GraphContext.ensureExecutionStep (ctx : GraphContext) (sid : String) :
    GraphContext :=
  match stepsGet ctx.steps sid with
  | some _ => ctx
  | Option.none =>
      let text := match ctx.getSubquestionById sid with
        | some sq => sq.text
        | Option.none => sid
      { ctx with steps := ctx.steps ++ [(sid, { id := sid, text := text })] }

/-- GraphContext.append_history_event (timestamp elided). -/
def GraphContext.appendHistoryEvent (ctx : GraphContext) (e : HistoryEvent) :
    GraphContext :=
  { ctx with history := ctx.history ++ [e] }

/-- GraphContext.mark_step_completed: set `completed = True` when the step
state exists, and append a `step_completed` history event. -/
def GraphContext.markStepCompleted (ctx : GraphContext) (sid : String) :
    GraphContext :=
  match stepsGet ctx.steps sid with
  | Option.none => ctx
  | some _ =>
      let ctx' := { ctx with steps := stepsUpdate ctx.steps sid (fun st => { st with completed := true }) }
      ctx'.appendHistoryEvent { type := "step_completed", stepId := some sid }

/-- GraphContext.is_step_fully_completed: `False` when the state is missing,
`False` when no expected stage is set, else every expected stage must be
completed. -/
def GraphContext.isStepFullyCompleted (ctx : GraphContext) (sid : String) : Bool :=
  match ctx.getExecutionStep sid with
  | Option.none => false
  | some step =>
      if !step.expectedStages.anyTrue then false
      else StageMap.covers step.expectedStages step.completedStages

/-- The per-subquestion test of `all_steps_completed`: an uninitialized step,
or one with no expected stage, fails; otherwise the step must be fully
completed. -/
def GraphContext.stepCounts (ctx : GraphContext) (sid : String) : Bool :=
  match ctx.getExecutionStep sid with
  | Option.none => false
  | some step => step.expectedStages.anyTrue && ctx.isStepFullyCompleted sid

/-- GraphContext.all_steps_completed: `True` when the plan is empty
(`is_plan_set` false), else every plan entry must pass `stepCounts`. -/
def GraphContext.allStepsCompleted (ctx : GraphContext) : Bool :=
  if ctx.plan.subquestions.isEmpty then true
  else ctx.plan.subquestions.all (fun sq => ctx.stepCounts sq.id)

/-- The body of the `select_next_step` loop: the step is skipped when it is
fully completed, and selected when every dependency is fully completed. -/
def GraphContext.stepReady (ctx : GraphContext) (sq : SubQuestion) : Bool :=
  !ctx.isStepFullyCompleted sq.id &&
    sq.dependsOn.all (fun dep => ctx.isStepFullyCompleted dep)

/-- GraphContext.select_next_step: `None` when the plan is not set, else the
first sub-question in plan order that is not fully completed and whose
dependencies are all fully completed. -/
def GraphContext.selectNextStep (ctx : GraphContext) : Option String :=
  if ctx.plan.subquestions.isEmpty then Option.none
  else (ctx.plan.subquestions.find? ctx.stepReady).map SubQuestion.id

/-- GraphContext.set_expected_stages: ensure the state, then overwrite the
`expected_stages` dict wholesale. -/
def GraphContext.setExpectedStages (ctx : GraphContext) (sid : String)
    (stages : StageMap) : GraphContext :=
  let ctx' := ctx.ensureExecutionStep sid
  { ctx' with steps := stepsUpdate ctx'.steps sid (fun st => { st with expectedStages := stages }) }

/-- GraphContext.mark_stage_completed: ensure the state, set the stage flag
when the key exists in `completed_stages`. -/
def GraphContext.markStageCompleted (ctx : GraphContext) (sid : String)
    (stage : String) : GraphContext :=
  let ctx' := ctx.ensureExecutionStep sid
  { ctx' with steps := stepsUpdate ctx'.steps sid (fun st => { st with completedStages := st.completedStages.write stage true }) }

/-- GraphContext.is_stage_completed. -/
def GraphContext.isStageCompleted (ctx : GraphContext) (sid : String)
    (stage : String) : Bool :=
  match ctx.getExecutionStep sid with
  | Option.none => false
  | some step => step.completedStages.read stage

/-- GraphContext.record_reasoner_decision: store the decision, derive
`expected_stages` from the flat `needs_postprocessing` (default `False`) and
`needs_validation` (default `True`) keys with `data_fetch` always `True`,
then store the chosen hypothesis when both the `hypotheses` and
`final_decision` keys are present and `final_decision.get("selected_hypothesis", 0)`
is within bounds. -/
def GraphContext.recordReasonerDecision (ctx : GraphContext) (sid : String)
    (d : Decision) : GraphContext :=
  let ctx1 := ctx.ensureExecutionStep sid
  let ctx2 := { ctx1 with steps := stepsUpdate ctx1.steps sid (fun st => { st with decision := some d }) }
  let expected : StageMap :=
    { dataFetch := true
      processing := d.needsPostprocessing.getD false
      validation := d.needsValidation.getD true }
  let ctx3 := ctx2.setExpectedStages sid expected
  match d.hypotheses, d.finalDecision with
  | some hs, some fd =>
      let idx : Int := fd.selectedHypothesis.getD 0
      if 0 ≤ idx then
        match hs.get? idx.toNat with
        | some hyp =>
            { ctx3 with steps := stepsUpdate ctx3.steps sid (fun st => { st with hypothesis := some hyp }) }
        | Option.none => ctx3
      else ctx3
  | _, _ => ctx3

/-! ## Reasoner node (`src/graph/nodes/reasoner.py`) -/

/-- Retry bound of the reasoner node.  `reasoner.py` hardcodes the literal
`2` in `retry_count < 2` (the spec default for `MAX_RETRIES`). -/
def maxRetries : Nat := 2

/-- Outcome of the `ReasonerAgent.decide_next_stage` call made inside the
node (the LLM-driven part, which the node treats as an oracle):
an `ok` result carrying the decision, an error result, or a raised
exception. -/
inductive ReasonerCall where
  | okDecision (d : Decision) : ReasonerCall
  | errorResult (msg : String) : ReasonerCall
  | raises (msg : String) : ReasonerCall

/-- Reading the validity flag as `reasoner_node` does:
`validation_result.get("is_valid", False)` when the step and a dict result
exist, `False` otherwise. -/
def StepExecutionState.validRead (st : StepExecutionState) : Bool :=
  match st.validationResult with
  | some vr => vr.isValid.getD false
  | Option.none => false

/-- The retry reset of `reasoner_node`: increment `retry_count`, reset every
completed stage to `False`, and clear `raw_output`, `validation_result` and
`error` (the `expected_stages` are kept). -/
def StepExecutionState.resetForRetry (st : StepExecutionState) : StepExecutionState :=
  { st with
    retryCount := st.retryCount + 1
    completedStages := StageMap.allFalse
    rawOutput := Value.none
    validationResult := Option.none
    error := Option.none }

/-- The node's `existing_decision and not has_error` test: the step has a
stored decision and no error.  (A stored decision is a non-empty dict in
practice, so `Option.isSome` models its truthiness.) -/
def GraphContext.hasExistingDecision (ctx : GraphContext) (sid : String) : Bool :=
  match ctx.getExecutionStep sid with
  | some st => st.decision.isSome && st.error.isNone
  | Option.none => false

/-- The non-retry part of `reasoner_node`: complete the step when it is
already fully completed, otherwise reuse an existing error-free decision
(no state change), otherwise consult the reasoner agent and record its
decision on success. -/
def GraphContext.reasonerMain (ctx : GraphContext) (sid : String)
    (call : ReasonerCall) : GraphContext :=
  if ctx.isStepFullyCompleted sid then ctx.markStepCompleted sid
  else if ctx.hasExistingDecision sid then ctx
  else
    match call with
    | ReasonerCall.okDecision d => ctx.recordReasonerDecision sid d
    | _ => ctx

/-- The node's read of the step validity
(`validation_result.get("is_valid", False)`, `False` without a step). -/
def GraphContext.readStepValid (ctx : GraphContext) (sid : String) : Bool :=
  match ctx.getExecutionStep sid with
  | some st => st.validRead
  | Option.none => false

/-- The node's read of `getattr(step, "retry_count", 0)`. -/
def GraphContext.readStepRetry (ctx : GraphContext) (sid : String) : Nat :=
  match ctx.getExecutionStep sid with
  | some st => st.retryCount
  | Option.none => 0

/-- reasoner_node: no-op without a current step; when the `validation` stage
has completed, an invalid result triggers the retry reset while
`retry_count < 2` and force-completes the step otherwise; a valid result
(and the no-validation-yet case) falls through to the normal logic. -/
def GraphContext.reasonerNode (ctx : GraphContext) (call : ReasonerCall) :
    GraphContext :=
  match ctx.currentStepId with
  | Option.none => ctx
  | some sid =>
      if ctx.isStageCompleted sid "validation" then
        if !ctx.readStepValid sid && ctx.readStepRetry sid < 2 then
          { ctx with steps := stepsUpdate ctx.steps sid StepExecutionState.resetForRetry }
        else if !ctx.readStepValid sid then
          ctx.markStepCompleted sid
        else
          ctx.reasonerMain sid call
      else ctx.reasonerMain sid call

/-! ## Deterministic hypothesis selection
(`src/agents/ReasonerAgent/operations/decide_next_stage.py`) -/

/-- Reading `hypotheses[i].get("confidence", 0)` (0 when the index is out of
range, which never happens for the indices the code produces). -/
def confAt (hs : List Hypothesis) (i : Nat) : ℚ :=
  ((hs.get? i).map Hypothesis.conf).getD 0

/-- The confidence threshold `0.5` of the deterministic selection. -/
def confThreshold : ℚ := mkRat 1 2

/-- The viable indices: `[i for i, h in enumerate(hypotheses) if h.get("confidence", 0) >= 0.5]`
(enumeration indices are `range` of the length). -/
def viableIndices (hs : List Hypothesis) : List Nat :=
  (List.range hs.length).filter (fun i => confThreshold ≤ confAt hs i)

/-- Python `max(xs, key=f)` on a non-empty list, given as head and tail:
the first element attaining the maximal key wins (later elements replace
the best only when strictly greater). -/
def pyMaxAux (f : Nat → ℚ) : Nat → List Nat → Nat
  | best, [] => best
  | best, i :: rest => pyMaxAux f (if f best < f i then i else best) rest

/-- The branch on the viable-index list: `-1` when empty (`if not viable`),
else Python `max(viable, key=...)`. -/
def selectedFromViable (f : Nat → ℚ) : List Nat → Int
  | [] => -1
  | i :: rest => Int.ofNat (pyMaxAux f i rest)

/-- The selected index computed by `_apply_deterministic_selection`:
`-1` for an empty (or absent) hypothesis list, `-1` when no hypothesis has
confidence at least 0.5, else the viable index of maximal confidence. -/
def selectedIndex (hs : List Hypothesis) : Int :=
  if hs.isEmpty then -1
  else selectedFromViable (confAt hs) (viableIndices hs)

/-- Operation._apply_deterministic_selection: overwrite
`final_decision["selected_hypothesis"]` with the recomputed index.  When the
`final_decision` key is absent the assignment raises `KeyError` (caught by
the operation's handler), modelled as `Option.none`. -/
def applyDeterministicSelection (d : Decision) : Option Decision :=
  match d.finalDecision with
  | Option.none => Option.none
  | some fd =>
      let fd' := { fd with selectedHypothesis := some (selectedIndex (d.hypotheses.getD [])) }
      some { d with finalDecision := some fd' }

/-- Reading `decision["final_decision"]["selected_hypothesis"]` of a decision
(for stating determinism of the override). -/
def decisionSelected (d : Decision) : Option Int :=
  match d.finalDecision with
  | some fd => fd.selectedHypothesis
  | Option.none => Option.none

/-! ## Result envelope (`src/model/agent_result.py`) and dispatcher
(`src/agents/base.py`) -/

/-- AgentResult: the envelope each operation returns.  `output` is
`Optional[Any]` (hence `Value`, with `Value.none` for `None`); the `ts`
timestamp is elided. -/
structure AgentResultE where
  status : String
  stage : Option String := Option.none
  entityType : Option String := Option.none
  agent : Option String := Option.none
  operation : Option String := Option.none
  inputParams : Option Value := Option.none
  output : Value := Value.none
  summary : Option String := Option.none
  metadata : List (String × Value) := []
  error : Option String := Option.none
  thinking : Option String := Option.none
  prompt : Option String := Option.none
  rawResponse : Option String := Option.none
  tokensUsed : Option Int := Option.none

/-- AgentResult.ok(stage, output, summary, input_params, ...): success
envelope; `metadata = metadata or {}`, `error = None`. -/
def AgentResultE.mkOk (stage : String) (output : Value)
    (summary : Option String := Option.none)
    (inputParams : Option Value := Option.none) : AgentResultE :=
  { status := "ok"
    stage := some stage
    output := output
    summary := summary
    inputParams := inputParams }

/-- AgentResult.error(message, stage, ...): error envelope.  Note the
parameter order of the source: `message` comes FIRST and `stage` second;
`summary` is derived as `message[:200] if message else None` and there is no
`summary` keyword. -/
def AgentResultE.mkError (message : String) (stage : String)
    (inputParams : Option Value := Option.none) : AgentResultE :=
  { status := "error"
    stage := some stage
    inputParams := inputParams
    summary := if message = "" then Option.none else some (message.take 200)
    error := some message }

/-- Python `dict.setdefault(key, v)`: insert at the end only when the key is
absent.  In `execute_operation` this runs on `result.metadata or {}`, which
has the same entries as `result.metadata`. -/
def metaSetdefault (m : List (String × Value)) (key : String) (v : Value) :
    List (String × Value) :=
  match alistGet m key with
  | some _ => m
  | Option.none => m ++ [(key, v)]

/-- The dispatcher's `if result.agent is None: result.agent = self.name`. -/
def fillAgentField (r : AgentResultE) (name : String) : AgentResultE :=
  if r.agent.isNone then { r with agent := some name } else r

/-- The dispatcher's `if result.operation is None: result.operation = operation`. -/
def fillOperationField (r : AgentResultE) (operation : String) : AgentResultE :=
  if r.operation.isNone then { r with operation := some operation } else r

/-- What `op_instance.run(params, context, self)` does for one call: return
an `AgentResult`, or raise.  (A `run` returning a non-`AgentResult` raises
`TypeError` inside the same `try`, so it is also a `raises`.) -/
inductive RunBehavior where
  | returns (r : AgentResultE) : RunBehavior
  | raises (msg : String) : RunBehavior

/-- The dispatcher-visible part of an initialized agent: its name and the
keys of the `_operations` dict loaded from the `operations/` folder. -/
structure AgentE where
  name : String
  operations : List String

/-- The message of the `KeyError` raised for an unknown operation
(the listing of available operations is elided). -/
def unknownOpMsg (operation agentName : String) : String :=
  "Операция \x27" ++ operation ++ "\x27 не найдена у агента \x27" ++ agentName ++ "\x27"

/-- The message of the wrapped-exception result:
`f"Операция '{operation}' завершилась с ошибкой: {exc}"`. -/
def opFailMsg (operation msg : String) : String :=
  "Операция \x27" ++ operation ++ "\x27 завершилась с ошибкой: " ++ msg

/-- BaseAgent.execute_operation.  The unknown-operation `KeyError` is raised
OUTSIDE the `try` block, so it crosses the call boundary (`Except.error`).
Inside the `try`, a raised exception is wrapped by the call
`AgentResult.error("operation_execution", f"Операция ... {exc}")` — which,
against the `error(message, stage, ...)` signature, passes
`"operation_execution"` as the MESSAGE and the formatted failure text as the
STAGE.  On success, `agent` and `operation` are filled only when `None`, and
`metadata` gains `elapsed_s` via `setdefault`.  The second component records
whether `op_instance.run` was invoked. -/
def executeOperation (agent : AgentE)
    (behavior : String → List (String × Value) → RunBehavior)
    (operation : String) (params : List (String × Value)) (elapsed : Value) :
    Except String AgentResultE × Bool :=
  if operation ∈ agent.operations then
    match behavior operation params with
    | RunBehavior.raises msg =>
        (Except.ok (AgentResultE.mkError "operation_execution" (opFailMsg operation msg)), true)
    | RunBehavior.returns r =>
        let r2 := fillOperationField (fillAgentField r agent.name) operation
        (Except.ok { r2 with metadata := metaSetdefault r2.metadata "elapsed_s" elapsed }, true)
  else
    (Except.error (unknownOpMsg operation agent.name), false)

/-! ## BooksLibraryAgent.list_books
(`src/agents/BooksLibraryAgent/operations/list_books.py`) -/

/-- The operation's `params_schema`: field name paired with its `required`
flag. -/
def listBooksParamsSchema : List (String × Bool) :=
  [("author", true), ("limit", false)]

/-- Operation.run of `list_books`.  The DB engine is abstracted as a query
function from the author parameter and the limit to the row list.  Two
faithful wrinkles: the no-engine branch calls
`AgentResult.error(..., summary=...)`, and `error()` has no `summary`
parameter, so that call raises `TypeError`; with an engine present,
`params["author"]` raises `KeyError` when the key is absent.  `limit` is
`min(int(params.get("limit", 100)), 1000)`; a non-integer value makes
`int()` raise (string-to-int coercion elided). -/
def listBooksRun (engine : Option (Value → Int → List Value))
    (params : List (String × Value)) : RunBehavior :=
  match engine with
  | Option.none =>
      RunBehavior.raises
        "TypeError: error() got an unexpected keyword argument \x27summary\x27"
  | some query =>
      match alistGet params "author" with
      | Option.none => RunBehavior.raises "KeyError: \x27author\x27"
      | some author =>
          match (alistGet params "limit").getD (Value.int 100) with
          | Value.int n =>
              let rows := query author (min n 1000)
              RunBehavior.returns
                (AgentResultE.mkOk "data_fetch" (Value.list rows)
                  (some "Успешно получены книги автора")
                  (some (Value.dict params)))
          | _ => RunBehavior.raises "TypeError: int() argument"

/-! ## LLMResponse.from_raw (`src/services/llm_service/model/response.py`)
with a model of `json.loads` -/

/-- JSON values, for modelling `json.loads` (floats and string escapes are
outside the subset this development exercises). -/
inductive Json where
  | null : Json
  | bool (b : Bool) : Json
  | num (n : Int) : Json
  | str (s : String) : Json
  | arr (items : List Json) : Json
  | obj (entries : List (String × Json)) : Json

/-- The literal brace characters (written by code point). -/
def lbraceChar : Char := Char.ofNat 123

/-- The closing brace character. -/
def rbraceChar : Char := Char.ofNat 125

/-- JSON whitespace. -/
def isWs (c : Char) : Bool :=
  c = ' ' || c = '\t' || c = '\n' || c = '\r'

/-- Drop leading whitespace. -/
def skipWs (cs : List Char) : List Char :=
  cs.dropWhile isWs

/-- Python `str.strip()`: drop whitespace at both ends. -/
def stripChars (cs : List Char) : List Char :=
  ((cs.dropWhile isWs).reverse.dropWhile isWs).reverse

/-- Scan a JSON string literal after its opening quote; no escape support
(a backslash fails the parse). -/
def scanStringLit : List Char → Option (List Char × List Char)
  | [] => Option.none
  | c :: rest =>
      if c = '"' then some ([], rest)
      else if c = '\\' then Option.none
      else match scanStringLit rest with
        | some (s, r) => some (c :: s, r)
        | Option.none => Option.none

/-- Split leading decimal digits. -/
def scanDigits : List Char → (List Char × List Char)
  | [] => ([], [])
  | c :: rest =>
      if c.isDigit then
        let (d, r) := scanDigits rest
        (c :: d, r)
      else ([], c :: rest)

/-- Numeric value of a digit list. -/
def digitsToNat (ds : List Char) : Nat :=
  ds.foldl (fun acc c => acc * 10 + (c.toNat - 48)) 0

/-- Check that `pat` is a prefix of `cs`. -/
def isPrefixChars : List Char → List Char → Bool
  | [], _ => true
  | _ :: _, [] => false
  | p :: ps, c :: cs => p = c && isPrefixChars ps cs

mutual

/-- Recursive-descent parse of one JSON value (fueled). -/
def parseJsonVal : Nat → List Char → Option (Json × List Char)
  | 0, _ => Option.none
  | fuel + 1, cs =>
      match skipWs cs with
      | [] => Option.none
      | c :: rest =>
          if c = 'n' then
            if isPrefixChars "ull".data rest then some (Json.null, rest.drop 3) else Option.none
          else if c = 't' then
            if isPrefixChars "rue".data rest then some (Json.bool true, rest.drop 3) else Option.none
          else if c = 'f' then
            if isPrefixChars "alse".data rest then some (Json.bool false, rest.drop 4) else Option.none
          else if c = '"' then
            match scanStringLit rest with
            | some (s, r) => some (Json.str (String.mk s), r)
            | Option.none => Option.none
          else if c = '-' then
            match scanDigits rest with
            | ([], _) => Option.none
            | (ds, r) => some (Json.num (-(Int.ofNat (digitsToNat ds))), r)
          else if c.isDigit then
            match scanDigits (c :: rest) with
            | (ds, r) => some (Json.num (Int.ofNat (digitsToNat ds)), r)
          else if c = lbraceChar then
            parseObjBody fuel rest
          else if c = '[' then
            parseArrBody fuel rest
          else Option.none

/-- Parse an array body after the opening bracket. -/
def parseArrBody : Nat → List Char → Option (Json × List Char)
  | 0, _ => Option.none
  | fuel + 1, cs =>
      match skipWs cs with
      | ']' :: rest => some (Json.arr [], rest)
      | cs' =>
          match parseJsonVal fuel cs' with
          | Option.none => Option.none
          | some (j, r) =>
              match parseArrRest fuel r with
              | some (items, r') => some (Json.arr (j :: items), r')
              | Option.none => Option.none

/-- Parse the remaining items of an array (after one value). -/
def parseArrRest : Nat → List Char → Option (List Json × List Char)
  | 0, _ => Option.none
  | fuel + 1, cs =>
      match skipWs cs with
      | ']' :: rest => some ([], rest)
      | ',' :: rest =>
          match parseJsonVal fuel rest with
          | Option.none => Option.none
          | some (j, r) =>
              match parseArrRest fuel r with
              | some (items, r') => some (j :: items, r')
              | Option.none => Option.none
      | _ => Option.none

/-- Parse an object body after the opening brace. -/
def parseObjBody : Nat → List Char → Option (Json × List Char)
  | 0, _ => Option.none
  | fuel + 1, cs =>
      match skipWs cs with
      | c :: rest =>
          if c = rbraceChar then some (Json.obj [], rest)
          else
            match parseObjPair fuel (c :: rest) with
            | Option.none => Option.none
            | some (kv, r) =>
                match parseObjRest fuel r with
                | some (entries, r') => some (Json.obj (kv :: entries), r')
                | Option.none => Option.none
      | [] => Option.none

/-- Parse one `"key": value` pair. -/
def parseObjPair : Nat → List Char → Option ((String × Json) × List Char)
  | 0, _ => Option.none
  | fuel + 1, cs =>
      match skipWs cs with
      | '"' :: rest =>
          match scanStringLit rest with
          | Option.none => Option.none
          | some (k, r) =>
              match skipWs r with
              | ':' :: r' =>
                  match parseJsonVal fuel r' with
                  | some (j, r'') => some ((String.mk k, j), r'')
                  | Option.none => Option.none
              | _ => Option.none
      | _ => Option.none

/-- Parse the remaining pairs of an object (after one pair). -/
def parseObjRest : Nat → List Char → Option (List (String × Json) × List Char)
  | 0, _ => Option.none
  | fuel + 1, cs =>
      match skipWs cs with
      | c :: rest =>
          if c = rbraceChar then some ([], rest)
          else if c = ',' then
            match parseObjPair fuel rest with
            | Option.none => Option.none
            | some (kv, r) =>
                match parseObjRest fuel r with
                | some (entries, r') => some (kv :: entries, r')
                | Option.none => Option.none
          else Option.none
      | [] => Option.none

end

/-- Model of `json.loads`: parse one value and require only whitespace to
remain (Python raises `Extra data` otherwise, which is a failed parse). -/
def jsonParse (s : String) : Option Json :=
  match parseJsonVal (s.length + 1) s.data with
  | some (j, rest) => if (skipWs rest).isEmpty then some j else Option.none
  | Option.none => Option.none

/-- First index at which `pat` occurs in a character list. -/
def findSubIdx (pat : List Char) : List Char → Option Nat
  | [] => if pat.isEmpty then some 0 else Option.none
  | c :: rest =>
      if isPrefixChars pat (c :: rest) then some 0
      else (findSubIdx pat rest).map (· + 1)

/-- First index of a single character (`str.find`). -/
def idxOfChar (c : Char) : List Char → Option Nat
  | [] => Option.none
  | x :: rest => if x = c then some 0 else (idxOfChar c rest).map (· + 1)

/-- Last index of a single character (`str.rfind`). -/
def lastIdxOfChar (c : Char) (cs : List Char) : Option Nat :=
  (idxOfChar c cs.reverse).map (fun k => cs.length - 1 - k)

/-- The fence marker of the regex. -/
def fenceMarker : List Char := "```".data

/-- The first capture of `re.findall(r"```(?:json)?\s*([\s\S]+?)\s*```", raw_text)`,
already stripped as the source then does: the text between the first fence
marker (with an optional `json` tag) and the next one, trimmed of
whitespace; `Option.none` when no such block exists (an empty-content fence
is outside the modelled subset and fails). -/
def findFenced (text : String) : Option String :=
  let cs := text.data
  match findSubIdx fenceMarker cs with
  | Option.none => Option.none
  | some i =>
      let afterOpen := cs.drop (i + 3)
      let afterTag := if isPrefixChars "json".data afterOpen then afterOpen.drop 4 else afterOpen
      match findSubIdx fenceMarker afterTag with
      | Option.none => Option.none
      | some j =>
          if j = 0 then Option.none
          else some (String.mk (stripChars (afterTag.take j)))

/-- The brace-matching branch of `from_raw`: `start = raw_text.find("{")`,
`end = raw_text.rfind("}")`, and the stripped slice when both exist with
`end > start`. -/
def braceSpan (text : String) : Option String :=
  match idxOfChar lbraceChar text.data, lastIdxOfChar rbraceChar text.data with
  | some s, some e =>
      if s < e then some (String.mk (stripChars ((text.data.drop s).take (e - s + 1))))
      else Option.none
  | _, _ => Option.none

/-- The `json_answer` field computed by `LLMResponse.from_raw`: the fenced
candidate when a fenced block exists, else the brace-span candidate; the
candidate is parsed only when non-empty (`if json_text:`), and a parse
failure leaves `json_answer` as `None`. -/
def fromRawJsonAnswer (text : String) : Option Json :=
  let jsonText := match findFenced text with
    | some s => some s
    | Option.none => braceSpan text
  match jsonText with
  | some s => if s = "" then Option.none else jsonParse s
  | Option.none => Option.none

/-! ## Legacy context and synthesizer node
(`src/graph/context.py`, `src/services/results/agent_result.py`,
`src/graph/nodes/synthesizer.py`) -/

/-- Python `None` test for dynamic values. -/
def Value.isNoneVal : Value → Bool
  | Value.none => true
  | _ => false

/-- Python `a or b`. -/
def pyOr (a b : Value) : Value :=
  if a.truthy then a else b

/-- StepState of the legacy `src/graph/context.py` (the fields the
synthesizer node reads). -/
structure LegacyStepState where
  id : String
  status : String := "pending"
  finalResult : Value := Value.none
  error : Option String := Option.none

/-- The legacy GraphContext of `src/graph/context.py` (the fields the
synthesizer node touches). -/
structure LegacyContext where
  question : Option String := Option.none
  steps : List (String × LegacyStepState) := []
  finalAnswer : Value := Value.none
  synthOutput : Value := Value.none
  history : List HistoryEvent := []

/-- AgentResult of the legacy `src/services/results/agent_result.py` (the
type the synthesizer node's `isinstance` check tests against). -/
structure LegacyAgentResult where
  status : String
  content : Value := Value.none
  structured : Option (List (String × Value)) := Option.none
  error : Option String := Option.none

/-- Outcome of the synthesizer-agent interaction, as the node observes it:
no registry, instantiation raised, the `synthesize` call raised, a legacy
`AgentResult`, a legacy plain dict, or any other value (e.g. the new-style
envelope, which matches neither `isinstance` branch). -/
inductive SynthCall where
  | noRegistry : SynthCall
  | instantiateRaises (msg : String) : SynthCall
  | callRaises (msg : String) : SynthCall
  | legacyResult (r : LegacyAgentResult) : SynthCall
  | dictResult (entries : List (String × Value)) : SynthCall
  | otherValue : SynthCall

/-- The `step_outputs` dict collected by the synthesizer node: steps whose
`status` is `finalized`, `executed` or `done` and whose `final_result` is
not `None`, in dict order. -/
def legacyStepOutputs (steps : List (String × LegacyStepState)) :
    List (String × Value) :=
  steps.filterMap (fun p =>
    if (p.2.status = "finalized" || p.2.status = "executed" || p.2.status = "done")
        && !p.2.finalResult.isNoneVal
    then some (p.1, p.2.finalResult) else Option.none)

/-- The fallback aggregation at the end of `synthesizer_node`: walk
`step_outputs` keeping the last entry, store its raw value as
`final_answer`, set the fallback marker in `synth_output`, and append the
`synthesizer_fallback_used` history event. -/
def synthFallback (ctx : LegacyContext) (outs : List (String × Value)) :
    LegacyContext :=
  { ctx with
    finalAnswer := ((outs.map Prod.snd).getLast?).getD Value.none
    synthOutput := Value.dict
      [("fallback", Value.bool true),
       ("steps_used", Value.list (outs.map (fun p => Value.str p.1)))]
    history := ctx.history ++
      [{ type := "synthesizer_fallback_used", stepId := (outs.map Prod.fst).getLast? }] }

/-- The legacy-dict branch test `raw.get("status") == "ok"`. -/
def dictStatusOk (entries : List (String × Value)) : Bool :=
  match alistGet entries "status" with
  | some (Value.str s) => s = "ok"
  | _ => false

/-- synthesizer_node.  Early exits: an existing `final_answer`, or an empty
`step_outputs`. The agent path: a legacy ok-result or ok-dict stores the
synthesized answer and returns; every error branch (and the
neither-type-matches branch) falls through to `synthFallback`. -/
def synthesizerNode (ctx : LegacyContext) (call : SynthCall) : LegacyContext :=
  if !ctx.finalAnswer.isNoneVal then
    { ctx with history := ctx.history ++ [{ type := "synthesizer_already_answer" }] }
  else
    let outs := legacyStepOutputs ctx.steps
    if outs.isEmpty then
      { ctx with history := ctx.history ++ [{ type := "synthesizer_no_step_outputs" }] }
    else
      match call with
      | SynthCall.noRegistry => synthFallback ctx outs
      | SynthCall.instantiateRaises _ =>
          synthFallback
            { ctx with history := ctx.history ++ [{ type := "synthesizer_instantiate_failed" }] } outs
      | SynthCall.callRaises _ =>
          synthFallback
            { ctx with history := ctx.history ++ [{ type := "synthesizer_agent_exception" }] } outs
      | SynthCall.legacyResult r =>
          if r.status = "ok" then
            let structured := r.structured.getD []
            let final := pyOr ((alistGet structured "final_answer").getD Value.none) r.content
            { ctx with
              finalAnswer := final
              synthOutput := Value.dict structured
              history := ctx.history ++ [{ type := "synthesizer_agent_ok" }] }
          else
            synthFallback
              { ctx with history := ctx.history ++ [{ type := "synthesizer_agent_error" }] } outs
      | SynthCall.dictResult entries =>
          if dictStatusOk entries then
            let structuredVal := (alistGet entries "structured").getD Value.none
            let structuredEntries := match (if structuredVal.truthy then structuredVal else Value.dict []) with
              | Value.dict es => es
              | _ => []
            let final := pyOr ((alistGet entries "content").getD Value.none)
              ((alistGet structuredEntries "final_answer").getD Value.none)
            { ctx with
              finalAnswer := final
              synthOutput := structuredVal
              history := ctx.history ++ [{ type := "synthesizer_agent_ok_legacy" }] }
          else
            synthFallback
              { ctx with history := ctx.history ++ [{ type := "synthesizer_agent_error_legacy" }] } outs
      | SynthCall.otherValue => synthFallback ctx outs

/-- Claim C8's "synthesizer agent is unavailable or its synthesize operation
returns an error". -/
def synthCallFailed : SynthCall → Bool
  | SynthCall.noRegistry => true
  | SynthCall.instantiateRaises _ => true
  | SynthCall.callRaises _ => true
  | SynthCall.legacyResult r => r.status ≠ "ok"
  | SynthCall.dictResult entries => !dictStatusOk entries
  | SynthCall.otherValue => false

/-! ## Spec-side definitions (claim wording, for comparison) -/

/-- Modelled from the spec: the expected stages claim C4 prescribes —
`fetch` exactly when the selected hypothesis is not `-1`, `process` from the
nested `postprocessing.needed`, `validate` from the nested
`validation.needed`. -/
def claimedExpectedStages (d : Decision) : StageMap :=
  { dataFetch := decide (decisionSelected d ≠ some (-1))
    processing := ((d.postprocessing.map StageIntent.needed).getD false)
    validation := ((d.validation.map StageIntent.needed).getD false) }

/-- Modelled from the spec: the string coercion (`str(...)`) that claim C8
says the fallback applies to the last completed step's output (container
reprs abbreviated; the claims only exercise scalar cases). -/
def pyStr : Value → String
  | Value.none => "None"
  | Value.bool b => if b then "True" else "False"
  | Value.int n => toString n
  | Value.str s => s
  | Value.list _ => "[...]"
  | Value.dict _ => "\x7b...\x7d"

/-- Modelled from the spec: depth-counting scan that collects characters up
to the brace closing the first opening brace. -/
def balancedScan : Nat → List Char → List Char → Option (List Char)
  | _, _, [] => Option.none
  | depth, acc, c :: rest =>
      if c = lbraceChar then balancedScan (depth + 1) (acc ++ [c]) rest
      else if c = rbraceChar then
        if depth = 1 then some (acc ++ [c])
        else balancedScan (depth - 1) (acc ++ [c]) rest
      else balancedScan depth (acc ++ [c]) rest

/-- Modelled from the spec: the first balanced `\x7b...\x7d` substring of a
text (claim C7's candidate when no fenced block exists). -/
def firstBalancedBraces (text : String) : Option String :=
  match idxOfChar lbraceChar text.data with
  | Option.none => Option.none
  | some s => (balancedScan 0 [] (text.data.drop s)).map String.mk

/-! ## Concrete fixtures used by witnesses and counterexamples -/

/-- A fully completed step state (fetch and validation expected and done). -/
def fixDoneStep : StepExecutionState :=
  { id := "q1", text := "books by Pushkin"
    expectedStages := { dataFetch := true, validation := true }
    completedStages := { dataFetch := true, validation := true } }

/-- A two-step plan with a dependency, step `q1` finished, `q2` pending. -/
def fixCtx : GraphContext :=
  { question := "Find books by Pushkin and name the last one"
    plan := { subquestions := [
      { id := "q1", text := "books by Pushkin" },
      { id := "q2", text := "name the last one", dependsOn := ["q1"] }] }
    steps := [("q1", fixDoneStep)] }

/-- A step whose `completed` flag and completed stages are all set while no
expected stage was ever enabled (claim C9's scenario). -/
def fixUnexpectedStep : StepExecutionState :=
  { id := "q1", text := "books by Pushkin"
    completed := true
    completedStages := { dataFetch := true, processing := true, validation := true } }

/-- A context holding only `fixUnexpectedStep` for its one-step plan. -/
def fixCtx9 : GraphContext :=
  { question := "List the books written by Pushkin"
    plan := { subquestions := [{ id := "q1", text := "books by Pushkin" }] }
    steps := [("q1", fixUnexpectedStep)] }

/-- A decision whose nested flags contradict the flat ones: postprocessing
needed, validation not needed, and no viable hypothesis (selected `-1`). -/
def fixDecision4 : Decision :=
  { hypotheses := some []
    finalDecision := some { selectedHypothesis := some (-1) }
    postprocessing := some { needed := true, confidence := mkRat 9 10 }
    validation := some { needed := false, confidence := mkRat 9 10 } }

/-- Three hypotheses: one below the threshold, two tied at 0.9. -/
def fixHyps : List Hypothesis :=
  [{ agent := "BooksLibraryAgent", operation := "dynamic_query", confidence := some (mkRat 3 10) },
   { agent := "BooksLibraryAgent", operation := "list_books", confidence := some (mkRat 9 10) },
   { agent := "BooksLibraryAgent", operation := "get_last_book", confidence := some (mkRat 9 10) }]

/-- A decision carrying `fixHyps` with an (ignored) LLM-chosen index 0. -/
def fixDecision3 : Decision :=
  { hypotheses := some fixHyps
    finalDecision := some { selectedHypothesis := some 0 }
    postprocessing := some { needed := false }
    validation := some { needed := true } }

/-- The decision produced by the override on `fixDecision3`: index 1 wins
(first of the two 0.9-confidence hypotheses). -/
def fixOut3 : Decision :=
  { fixDecision3 with finalDecision := some { selectedHypothesis := some 1 } }

/-- A context mid-retry: current step `q1` with validation completed and
invalid, no retries used yet. -/
def fixRetryStep : StepExecutionState :=
  { id := "q1", text := "books by Pushkin"
    expectedStages := { dataFetch := true, validation := true }
    completedStages := { dataFetch := true, validation := true }
    rawOutput := Value.list []
    validationResult := some { isValid := some false, confidence := mkRat 1 2 } }

/-- The retry fixture context. -/
def fixCtx5 : GraphContext :=
  { question := "List the books written by Pushkin"
    plan := { subquestions := [{ id := "q1", text := "books by Pushkin" }] }
    currentStepId := some "q1"
    steps := [("q1", fixRetryStep)] }

/-- The same fixture with the retry budget exhausted. -/
def fixCtx5Exhausted : GraphContext :=
  { fixCtx5 with steps := [("q1", { fixRetryStep with retryCount := 2 })] }

/-- The dispatcher-visible BooksLibraryAgent. -/
def fixAgent : AgentE :=
  { name := "BooksLibraryAgent", operations := ["list_books", "get_last_book"] }

/-- A one-row query result. -/
def fixRow : Value :=
  Value.dict [("book_id", Value.int 1), ("title", Value.str "Eugene Onegin")]

/-- A behavior table that runs `list_books` against a one-row engine and
raises for everything else. -/
def fixBehavior : String → List (String × Value) → RunBehavior :=
  fun op params =>
    if op = "list_books" then listBooksRun (some (fun _ _ => [fixRow])) params
    else RunBehavior.raises "RuntimeError"

/-- A behavior whose `run` raises (the missing-parameter `KeyError`). -/
def fixRaisingBehavior : String → List (String × Value) → RunBehavior :=
  fun _ _ => RunBehavior.raises "KeyError: \x27author\x27"

/-- An operation result with its own `agent` already set and a metadata key
present, to exercise the no-overwrite paths of claim C10. -/
def fixOpResult : AgentResultE :=
  { status := "ok"
    stage := some "data_fetch"
    agent := some "CustomAgent"
    output := Value.list [fixRow]
    metadata := [("source", Value.str "db")] }

/-- A behavior returning `fixOpResult`. -/
def fixReturningBehavior : String → List (String × Value) → RunBehavior :=
  fun _ _ => RunBehavior.returns fixOpResult

/-- A legacy context with two finished steps for the synthesizer fallback
(the last one carrying a non-string output). -/
def fixLegacyCtx : LegacyContext :=
  { question := some "List the books written by Pushkin"
    steps := [
      ("q1", { id := "q1", status := "done", finalResult := Value.str "two books" }),
      ("q2", { id := "q2", status := "done", finalResult := Value.int 7 })] }

/-- The counterexample text of claim C7: two adjacent JSON objects and no
fenced block. -/
def fixC7Text : String := "\x7b\"a\":1\x7d \x7b\"b\":2\x7d"

/-- A plain text with one JSON object after a prose prefix. -/
def fixC7OkText : String := "the answer: \x7b\"a\": 1\x7d"

/-! # Theorems -/

/-- Updating an entry and reading it back applies the update. -/
theorem stepsGet_update_self (steps : List (String × StepExecutionState))
    (sid : String) (f : StepExecutionState → StepExecutionState) :
    stepsGet (stepsUpdate steps sid f) sid = (stepsGet steps sid).map f := by
  induction steps with
  | nil => rfl
  | cons p rest ih =>
      obtain ⟨k, v⟩ := p
      by_cases h : k = sid
      · subst h
        simp [stepsUpdate, stepsGet]
      · simp [stepsUpdate, stepsGet, h, ih]

/-- Updating one entry leaves the other keys unchanged. -/
theorem stepsGet_update_ne (steps : List (String × StepExecutionState))
    (sid sid' : String) (f : StepExecutionState → StepExecutionState)
    (h : sid' ≠ sid) :
    stepsGet (stepsUpdate steps sid f) sid' = stepsGet steps sid' := by
  induction steps with
  | nil => rfl
  | cons p rest ih =>
      obtain ⟨k, v⟩ := p
      by_cases hk : k = sid
      · subst hk
        have hne : ¬ k = sid' := fun hc => h hc.symm
        simp [stepsUpdate, stepsGet, hne, ih]
      · by_cases hk' : k = sid'
        · subst hk'
          simp [stepsUpdate, stepsGet, hk]
        · simp [stepsUpdate, stepsGet, hk, hk', ih]

/-- Every entry of an updated dict is an untouched entry of the original, or
the updated image of the entry the lookup returns. -/
theorem mem_stepsUpdate (steps : List (String × StepExecutionState))
    (sid : String) (f : StepExecutionState → StepExecutionState)
    (p : String × StepExecutionState) (h : p ∈ stepsUpdate steps sid f) :
    p ∈ steps ∨ ∃ st, stepsGet steps sid = some st ∧ p = (sid, f st) := by
  induction steps with
  | nil => cases h
  | cons q rest ih =>
      obtain ⟨k, v⟩ := q
      by_cases hk : k = sid
      · subst hk
        rw [stepsUpdate, if_pos rfl] at h
        rcases List.mem_cons.mp h with rfl | h'
        · right
          exact ⟨v, by simp [stepsGet], rfl⟩
        · left
          exact List.mem_cons_of_mem _ h'
      · rw [stepsUpdate, if_neg hk] at h
        rcases List.mem_cons.mp h with rfl | h'
        · left
          exact List.mem_cons_self _ _
        · rcases ih h' with hin | ⟨st, hst, hp⟩
          · left
            exact List.mem_cons_of_mem _ hin
          · right
            exact ⟨st, by simp [stepsGet, hk, hst], hp⟩

/-- Reading a key present in the dict finds its entry in the list. -/
theorem stepsGet_mem (steps : List (String × StepExecutionState))
    (sid : String) (st : StepExecutionState)
    (h : stepsGet steps sid = some st) : (sid, st) ∈ steps := by
  induction steps with
  | nil => cases h
  | cons p rest ih =>
      obtain ⟨k, v⟩ := p
      by_cases hk : k = sid
      · simp [stepsGet, hk] at h
        simp [hk, h]
      · simp [stepsGet, hk] at h
        exact List.mem_cons_of_mem _ (ih h)

/-- A `find?` hit splits the list at the first satisfying element. -/
theorem find?_split {α : Type} (p : α → Bool) (l : List α) (a : α)
    (h : l.find? p = some a) :
    p a = true ∧ ∃ pre post, l = pre ++ a :: post ∧ ∀ b ∈ pre, p b = false := by
  induction l with
  | nil => cases h
  | cons x xs ih =>
      by_cases hx : p x
      · rw [List.find?_cons_of_pos _ hx] at h
        obtain rfl : x = a := by injection h
        exact ⟨hx, [], xs, rfl, by intro b hb; cases hb⟩
      · rw [List.find?_cons_of_neg _ (by simpa using hx)] at h
        obtain ⟨hpa, pre, post, rfl, hpre⟩ := ih h
        refine ⟨hpa, x :: pre, post, rfl, ?_⟩
        intro b hb
        rcases List.mem_cons.mp hb with rfl | hb'
        · simpa using hx
        · exact hpre b hb'

/-- A sub-question fails the readiness test exactly when it is already fully
completed or has an incomplete dependency. -/
theorem stepReady_eq_false_iff (ctx : GraphContext) (sq : SubQuestion) :
    ctx.stepReady sq = false ↔
      ctx.isStepFullyCompleted sq.id = true ∨
        ∃ dep ∈ sq.dependsOn, ctx.isStepFullyCompleted dep = false := by
  cases hv : ctx.isStepFullyCompleted sq.id
  · simp only [GraphContext.stepReady, hv, Bool.not_false, Bool.true_and,
      Bool.false_eq_true, false_or]
    constructor
    · intro hall
      by_contra hc
      push_neg at hc
      have : sq.dependsOn.all (fun dep => ctx.isStepFullyCompleted dep) = true := by
        rw [List.all_eq_true]
        intro dep hdep
        cases hd : ctx.isStepFullyCompleted dep
        · exact absurd hd (hc dep hdep)
        · rfl
      rw [this] at hall
      cases hall
    · rintro ⟨dep, hdep, hne⟩
      cases hall : sq.dependsOn.all (fun dep => ctx.isStepFullyCompleted dep)
      · rfl
      · have := List.all_eq_true.mp hall dep hdep
        rw [hne] at this
        cases this
  · simp [GraphContext.stepReady, hv]

/-- C2: `select_next_step` returns the first sub-question in plan order that
is not fully completed and whose dependencies are all fully completed (every
earlier sub-question is either fully completed or blocked by an incomplete
dependency), and returns `None` exactly when no such sub-question exists;
in particular a returned step never has an incomplete dependency. -/
theorem c2_select_next_step (ctx : GraphContext) :
    (∀ sid, ctx.selectNextStep = some sid →
      ∃ sq pre post,
        ctx.plan.subquestions = pre ++ sq :: post ∧ sq.id = sid ∧
        ctx.isStepFullyCompleted sq.id = false ∧
        (∀ dep ∈ sq.dependsOn, ctx.isStepFullyCompleted dep = true) ∧
        (∀ sq' ∈ pre, ctx.isStepFullyCompleted sq'.id = true ∨
          ∃ dep ∈ sq'.dependsOn, ctx.isStepFullyCompleted dep = false)) ∧
    (ctx.selectNextStep = Option.none ↔
      ∀ sq ∈ ctx.plan.subquestions,
        ctx.isStepFullyCompleted sq.id = true ∨
          ∃ dep ∈ sq.dependsOn, ctx.isStepFullyCompleted dep = false) := by
  constructor
  · intro sid h
    unfold GraphContext.selectNextStep at h
    cases hemp : ctx.plan.subquestions.isEmpty
    · rw [hemp] at h
      simp only [Bool.false_eq_true, if_false, Option.map_eq_some'] at h
      obtain ⟨sq, hfind, hid⟩ := h
      obtain ⟨hready, pre, post, hsplit, hpre⟩ := find?_split _ _ _ hfind
      have hready' := hready
      simp only [GraphContext.stepReady, Bool.and_eq_true, Bool.not_eq_true',
        List.all_eq_true] at hready'
      refine ⟨sq, pre, post, hsplit, hid, hready'.1, hready'.2, ?_⟩
      intro sq' hsq'
      exact (stepReady_eq_false_iff ctx sq').mp (hpre sq' hsq')
    · rw [hemp] at h
      simp at h
  · unfold GraphContext.selectNextStep
    cases hemp : ctx.plan.subquestions.isEmpty
    · simp only [hemp, Bool.false_eq_true, if_false, Option.map_eq_none']
      rw [List.find?_eq_none]
      constructor
      · intro h sq hsq
        exact (stepReady_eq_false_iff ctx sq).mp (by
          cases hv : ctx.stepReady sq
          · rfl
          · exact absurd hv (h sq hsq))
      · intro h sq hsq
        have := (stepReady_eq_false_iff ctx sq).mpr (h sq hsq)
        simp [this]
    · have : ctx.plan.subquestions = [] := List.isEmpty_iff.mp hemp
      simp [hemp, this]

/-- Witness for C2 at the two-step fixture: `q2` is selected, and the
theorem yields its decomposition with completed dependencies. -/
theorem c2_select_next_step_witness :
    ∃ sq pre post,
      fixCtx.plan.subquestions = pre ++ sq :: post ∧ sq.id = "q2" ∧
      fixCtx.isStepFullyCompleted sq.id = false ∧
      (∀ dep ∈ sq.dependsOn, fixCtx.isStepFullyCompleted dep = true) ∧
      (∀ sq' ∈ pre, fixCtx.isStepFullyCompleted sq'.id = true ∨
        ∃ dep ∈ sq'.dependsOn, fixCtx.isStepFullyCompleted dep = false) :=
  (c2_select_next_step fixCtx).1 "q2" (by rfl)

/-- C9: a step whose expected stages are all unset is never fully completed
— not even with its `completed` flag set and every completed-stage flag true
— `all_steps_completed` fails while the plan contains it, and
`mark_step_completed` does not change that. -/
theorem c9_expected_stages_gate (ctx : GraphContext) (sid : String)
    (st : StepExecutionState)
    (hst : ctx.getExecutionStep sid = some st)
    (hexp : st.expectedStages.anyTrue = false) :
    ctx.isStepFullyCompleted sid = false ∧
    (∀ sq ∈ ctx.plan.subquestions, sq.id = sid → ctx.allStepsCompleted = false) ∧
    (ctx.markStepCompleted sid).isStepFullyCompleted sid = false := by
  refine ⟨?_, ?_, ?_⟩
  · simp [GraphContext.isStepFullyCompleted, hst, hexp]
  · intro sq hsq hid
    have hcount : ctx.stepCounts sq.id = false := by
      simp [GraphContext.stepCounts, hid, hst, hexp]
    have hne : ¬ ctx.plan.subquestions.isEmpty := by
      intro hc
      rw [List.isEmpty_iff.mp hc] at hsq
      cases hsq
    unfold GraphContext.allStepsCompleted
    simp only [hne, if_false]
    cases hall : ctx.plan.subquestions.all (fun q => ctx.stepCounts q.id)
    · rfl
    · have := List.all_eq_true.mp hall sq hsq
      rw [hcount] at this
      cases this
  · unfold GraphContext.markStepCompleted
    rw [show stepsGet ctx.steps sid = some st from hst]
    simp only [GraphContext.isStepFullyCompleted, GraphContext.appendHistoryEvent,
      GraphContext.getExecutionStep]
    rw [stepsGet_update_self]
    rw [show stepsGet ctx.steps sid = some st from hst]
    simp [hexp]

/-- Witness for C9 at the fixture whose step was marked completed with all
completed-stage flags true but no expected stage enabled. -/
theorem c9_expected_stages_gate_witness :
    fixCtx9.isStepFullyCompleted "q1" = false ∧
    (∀ sq ∈ fixCtx9.plan.subquestions, sq.id = "q1" →
      fixCtx9.allStepsCompleted = false) ∧
    (fixCtx9.markStepCompleted "q1").isStepFullyCompleted "q1" = false :=
  c9_expected_stages_gate fixCtx9 "q1" fixUnexpectedStep (by rfl) (by rfl)

/-- Ensuring a step whose state exists leaves the context unchanged. -/
theorem ensure_eq_of_some {ctx : GraphContext} {sid : String}
    {st : StepExecutionState} (h : stepsGet ctx.steps sid = some st) :
    ctx.ensureExecutionStep sid = ctx := by
  unfold GraphContext.ensureExecutionStep
  rw [h]

/-- Appending a fresh entry makes it visible to lookup. -/
theorem stepsGet_append_self (steps : List (String × StepExecutionState))
    (sid : String) (st : StepExecutionState)
    (h : stepsGet steps sid = Option.none) :
    stepsGet (steps ++ [(sid, st)]) sid = some st := by
  induction steps with
  | nil => simp [stepsGet]
  | cons p rest ih =>
      obtain ⟨k, v⟩ := p
      by_cases hk : k = sid
      · rw [stepsGet, if_pos hk] at h
        cases h
      · rw [stepsGet, if_neg hk] at h
        simpa [stepsGet, hk] using ih h

/-- After `ensure_execution_step` the state exists. -/
theorem ensure_lookup (ctx : GraphContext) (sid : String) :
    ∃ st0, stepsGet (ctx.ensureExecutionStep sid).steps sid = some st0 := by
  unfold GraphContext.ensureExecutionStep
  cases h : stepsGet ctx.steps sid with
  | some st => exact ⟨st, h⟩
  | none => exact ⟨_, stepsGet_append_self _ _ _ h⟩

/-- Updating an existing entry and reading it back gives the updated state
(phrased with an explicit result so that `apply` can unify the goal first). -/
theorem stepsGet_update_of_some (l : List (String × StepExecutionState))
    (sid : String) (g : StepExecutionState → StepExecutionState)
    (st st' : StepExecutionState) (h : stepsGet l sid = some st)
    (h' : st' = g st) :
    stepsGet (stepsUpdate l sid g) sid = some st' := by
  rw [stepsGet_update_self, h, h']
  rfl

/-- Lookup after `set_expected_stages` given the state already exists. -/
theorem setExpectedStages_lookup (ctx : GraphContext) (sid : String)
    (stages : StageMap) (st0 st1 : StepExecutionState)
    (h0 : stepsGet ctx.steps sid = some st0)
    (h1 : st1 = { st0 with expectedStages := stages }) :
    stepsGet (ctx.setExpectedStages sid stages).steps sid = some st1 := by
  unfold GraphContext.setExpectedStages
  rw [ensure_eq_of_some h0, stepsGet_update_self, h0, h1]
  rfl

/-- Counterexample to C4 as stated: recording `fixDecision4` — whose
selected hypothesis is `-1`, whose `postprocessing.needed` is true and
whose `validation.needed` is false — yields the expected stages
`(fetch, process, validate) = (true, false, true)`, while the claim
prescribes `(false, true, false)`. -/
theorem c4_counterexample :
    ((GraphContext.recordReasonerDecision {} "q1" fixDecision4).getExecutionStep
        "q1").map StepExecutionState.expectedStages =
      some { dataFetch := true, processing := false, validation := true } ∧
    claimedExpectedStages fixDecision4 =
      { dataFetch := false, processing := true, validation := false } ∧
    ({ dataFetch := true, processing := false, validation := true } : StageMap) ≠
      ({ dataFetch := false, processing := true, validation := false } : StageMap) :=
  ⟨by rfl, by rfl, by decide⟩

/-- C4 as amended: `record_reasoner_decision` stores the decision, sets
`data_fetch` expected unconditionally, takes `process` from the flat
`needs_postprocessing` key (false when absent) and `validate` from the flat
`needs_validation` key (true when absent) — the nested `postprocessing.needed`
and `validation.needed` flags are not consulted — and stores the hypothesis
selected by `final_decision.selected_hypothesis` (default 0) only when both
the `hypotheses` and `final_decision` keys are present and the index is
within bounds, leaving the previous hypothesis otherwise. -/
theorem c4_record_reasoner_decision (ctx : GraphContext) (sid : String)
    (d : Decision) :
    ∃ st, (ctx.recordReasonerDecision sid d).getExecutionStep sid = some st ∧
      st.expectedStages =
        { dataFetch := true
          processing := d.needsPostprocessing.getD false
          validation := d.needsValidation.getD true } ∧
      st.decision = some d ∧
      (∀ hs fd hyp, d.hypotheses = some hs → d.finalDecision = some fd →
        0 ≤ fd.selectedHypothesis.getD 0 →
        hs.get? (fd.selectedHypothesis.getD 0).toNat = some hyp →
        st.hypothesis = some hyp) ∧
      (∀ st0, stepsGet (ctx.ensureExecutionStep sid).steps sid = some st0 →
        (∀ hs fd, d.hypotheses = some hs → d.finalDecision = some fd →
          ¬ (0 ≤ fd.selectedHypothesis.getD 0 ∧
             (hs.get? (fd.selectedHypothesis.getD 0).toNat).isSome)) →
        st.hypothesis = st0.hypothesis) := by
  obtain ⟨st0, h0⟩ := ensure_lookup ctx sid
  have h2 : stepsGet (stepsUpdate (ctx.ensureExecutionStep sid).steps sid
      (fun st => { st with decision := some d })) sid =
      some { st0 with decision := some d } := by
    rw [stepsGet_update_self, h0]
    rfl
  simp only [GraphContext.recordReasonerDecision]
  split
  · rename_i hs fd hh hfd
    split
    · rename_i hidx
      split
      · rename_i hyp hget
        refine ⟨{ st0 with
            decision := some d,
            expectedStages :=
              { dataFetch := true
                processing := d.needsPostprocessing.getD false
                validation := d.needsValidation.getD true },
            hypothesis := some hyp }, ?_, rfl, rfl, ?_, ?_⟩
        · show stepsGet (stepsUpdate _ sid
            (fun st => { st with hypothesis := some hyp })) sid = _
          apply stepsGet_update_of_some
          · apply setExpectedStages_lookup
            · exact h2
            · rfl
          · rfl
        · intro hs' fd' hyp' hh' hfd' _ hget'
          rw [hh] at hh'
          cases hh'
          rw [hfd] at hfd'
          cases hfd'
          rw [hget] at hget'
          cases hget'
          rfl
        · intro st0' h0' hfail
          exact absurd ⟨hidx, by rw [hget]; rfl⟩ (hfail hs fd hh hfd)
      · rename_i hget
        refine ⟨{ st0 with
            decision := some d,
            expectedStages :=
              { dataFetch := true
                processing := d.needsPostprocessing.getD false
                validation := d.needsValidation.getD true } },
          ?_, rfl, rfl, ?_, ?_⟩
        · show stepsGet _ sid = _
          apply setExpectedStages_lookup
          · exact h2
          · rfl
        · intro hs' fd' hyp' hh' hfd' _ hget'
          rw [hh] at hh'
          cases hh'
          rw [hfd] at hfd'
          cases hfd'
          rw [hget] at hget'
          cases hget'
        · intro st0' h0' _
          rw [h0] at h0'
          cases h0'
          rfl
    · rename_i hidx
      refine ⟨{ st0 with
          decision := some d,
          expectedStages :=
            { dataFetch := true
              processing := d.needsPostprocessing.getD false
              validation := d.needsValidation.getD true } },
        ?_, rfl, rfl, ?_, ?_⟩
      · show stepsGet _ sid = _
        apply setExpectedStages_lookup
        · exact h2
        · rfl
      · intro hs' fd' hyp' hh' hfd' hidx' _
        rw [hfd] at hfd'
        cases hfd'
        exact absurd hidx' hidx
      · intro st0' h0' _
        rw [h0] at h0'
        cases h0'
        rfl
  · rename_i hnomatch
    refine ⟨{ st0 with
        decision := some d,
        expectedStages :=
          { dataFetch := true
            processing := d.needsPostprocessing.getD false
            validation := d.needsValidation.getD true } },
      ?_, rfl, rfl, ?_, ?_⟩
    · show stepsGet _ sid = _
      apply setExpectedStages_lookup
      · exact h2
      · rfl
    · intro hs' fd' hyp' hh' hfd' _ _
      exact (hnomatch hs' fd' hh' hfd').elim
    · intro st0' h0' _
      rw [h0] at h0'
      cases h0'
      rfl

/-- Witness for C4's amended theorem at the fixture decision (flat keys
absent, so processing defaults to false and validation to true). -/
theorem c4_record_reasoner_decision_witness :
    ∃ st, (fixCtx.recordReasonerDecision "q2" fixDecision4).getExecutionStep
        "q2" = some st ∧
      st.expectedStages =
        { dataFetch := true, processing := false, validation := true } := by
  obtain ⟨st, hst, hexp, _⟩ := c4_record_reasoner_decision fixCtx "q2" fixDecision4
  exact ⟨st, hst, hexp⟩

/-- The running maximum computed by `pyMaxAux` is one of the candidates. -/
theorem pyMaxAux_mem (f : Nat → ℚ) (xs : List Nat) :
    ∀ best, pyMaxAux f best xs ∈ best :: xs := by
  induction xs with
  | nil =>
      intro best
      simp [pyMaxAux]
  | cons i rest ih =>
      intro best
      simp only [pyMaxAux]
      by_cases h : f best < f i
      · rw [if_pos h]
        exact List.mem_cons_of_mem _ (ih i)
      · rw [if_neg h]
        rcases List.mem_cons.mp (ih best) with heq | hmem
        · exact List.mem_cons.mpr (Or.inl heq)
        · exact List.mem_cons_of_mem _ (List.mem_cons_of_mem _ hmem)

/-- The running maximum dominates every candidate (Python `max` with a key:
later elements replace the best only on a strict increase). -/
theorem pyMaxAux_le (f : Nat → ℚ) (xs : List Nat) :
    ∀ best j, j ∈ best :: xs → f j ≤ f (pyMaxAux f best xs) := by
  induction xs with
  | nil =>
      intro best j hj
      rcases List.mem_cons.mp hj with heq | hmem
      · rw [heq]
        simp [pyMaxAux]
      · cases hmem
  | cons i rest ih =>
      intro best j hj
      simp only [pyMaxAux]
      by_cases h : f best < f i
      · rw [if_pos h]
        rcases List.mem_cons.mp hj with heq | hmem
        · exact le_trans (le_of_lt (by rw [heq]; exact h))
            (ih i i (List.mem_cons_self _ _))
        · exact ih i j hmem
      · rw [if_neg h]
        rcases List.mem_cons.mp hj with heq | hmem
        · exact ih best j (List.mem_cons.mpr (Or.inl heq))
        · rcases List.mem_cons.mp hmem with heq2 | hmem2
          · have hle : f j ≤ f best := by
              rw [heq2]
              exact le_of_not_lt h
            exact le_trans hle (ih best best (List.mem_cons_self _ _))
          · exact ih best j (List.mem_cons_of_mem _ hmem2)

/-- Characterization of the viable indices. -/
theorem mem_viableIndices (hs : List Hypothesis) (i : Nat) :
    i ∈ viableIndices hs ↔ i < hs.length ∧ confThreshold ≤ confAt hs i := by
  simp [viableIndices, List.mem_filter, List.mem_range]

/-- The selected index is `-1` exactly when no hypothesis reaches the
confidence threshold (in particular when the list is empty). -/
theorem selectedIndex_neg_iff (hs : List Hypothesis) :
    selectedIndex hs = -1 ↔
      ∀ i < hs.length, confAt hs i < confThreshold := by
  unfold selectedIndex
  by_cases hemp : hs.isEmpty
  · have hlen : hs.length = 0 := by
      rw [List.isEmpty_iff.mp hemp]
      rfl
    rw [if_pos hemp]
    constructor
    · intro _ i hi
      rw [hlen] at hi
      cases hi
    · intro _
      rfl
  · rw [if_neg hemp]
    cases hv : viableIndices hs with
    | nil =>
        simp only [selectedFromViable]
        constructor
        · intro _ i hi
          by_contra hc
          push_neg at hc
          have : i ∈ viableIndices hs := (mem_viableIndices hs i).mpr ⟨hi, hc⟩
          rw [hv] at this
          cases this
        · intro _
          trivial
    | cons i0 rest =>
        simp only [selectedFromViable]
        constructor
        · intro habs
          exfalso
          have hge : (0 : Int) ≤ Int.ofNat (pyMaxAux (confAt hs) i0 rest) :=
            Int.ofNat_nonneg _
          rw [habs] at hge
          exact absurd hge (by decide)
        · intro hall
          have hi0 : i0 ∈ viableIndices hs := by
            rw [hv]
            exact List.mem_cons_self _ _
          obtain ⟨hlen, hconf⟩ := (mem_viableIndices hs i0).mp hi0
          exact absurd (hall i0 hlen) (not_lt.mpr hconf)

/-- When the selected index is a natural number, it is a viable index of
maximal confidence. -/
theorem selectedIndex_spec (hs : List Hypothesis) (i : Nat)
    (h : selectedIndex hs = Int.ofNat i) :
    i < hs.length ∧ confThreshold ≤ confAt hs i ∧
      ∀ j < hs.length, confThreshold ≤ confAt hs j →
        confAt hs j ≤ confAt hs i := by
  unfold selectedIndex at h
  by_cases hemp : hs.isEmpty
  · rw [if_pos hemp] at h
    exfalso
    have hge : (0 : Int) ≤ Int.ofNat i := Int.ofNat_nonneg i
    rw [← h] at hge
    exact absurd hge (by decide)
  · rw [if_neg hemp] at h
    cases hv : viableIndices hs with
    | nil =>
        simp only [hv, selectedFromViable] at h
        exfalso
        have hge : (0 : Int) ≤ Int.ofNat i := Int.ofNat_nonneg i
        rw [← h] at hge
        exact absurd hge (by decide)
    | cons i0 rest =>
        simp only [hv, selectedFromViable] at h
        have hi : pyMaxAux (confAt hs) i0 rest = i := Int.ofNat.inj h
        have hmem : pyMaxAux (confAt hs) i0 rest ∈ i0 :: rest :=
          pyMaxAux_mem _ _ i0
        rw [hi, ← hv] at hmem
        obtain ⟨hlen, hconf⟩ := (mem_viableIndices hs i).mp hmem
        refine ⟨hlen, hconf, ?_⟩
        intro j hj hconfj
        have hjmem : j ∈ viableIndices hs :=
          (mem_viableIndices hs j).mpr ⟨hj, hconfj⟩
        rw [hv] at hjmem
        have := pyMaxAux_le (confAt hs) rest i0 j hjmem
        rw [hi] at this
        exact this

/-- C3: the deterministic override stores, in
`final_decision.selected_hypothesis`, the index of a highest-confidence
hypothesis among those with confidence at least 0.5 (ties broken by the
first such index, per Python `max`), `-1` exactly when no hypothesis
reaches 0.5 or the list is empty; the selection depends only on the
hypothesis list, hence identical hypotheses yield an identical index. -/
theorem c3_deterministic_selection (d d' : Decision)
    (h : applyDeterministicSelection d = some d') :
    decisionSelected d' = some (selectedIndex (d.hypotheses.getD [])) ∧
    (selectedIndex (d.hypotheses.getD []) = -1 ↔
      ∀ i < (d.hypotheses.getD []).length,
        confAt (d.hypotheses.getD []) i < confThreshold) ∧
    (∀ i : Nat, selectedIndex (d.hypotheses.getD []) = Int.ofNat i →
      i < (d.hypotheses.getD []).length ∧
      confThreshold ≤ confAt (d.hypotheses.getD []) i ∧
      ∀ j < (d.hypotheses.getD []).length,
        confThreshold ≤ confAt (d.hypotheses.getD []) j →
        confAt (d.hypotheses.getD []) j ≤ confAt (d.hypotheses.getD []) i) ∧
    (∀ e e' : Decision, e.hypotheses = d.hypotheses →
      applyDeterministicSelection e = some e' →
      decisionSelected e' = decisionSelected d') := by
  have hsel : ∀ (x x' : Decision), applyDeterministicSelection x = some x' →
      decisionSelected x' = some (selectedIndex (x.hypotheses.getD [])) := by
    intro x x' hx
    unfold applyDeterministicSelection at hx
    cases hfd : x.finalDecision with
    | none =>
        rw [hfd] at hx
        cases hx
    | some fd =>
        rw [hfd] at hx
        cases hx
        rfl
  refine ⟨hsel d d' h, selectedIndex_neg_iff _, ?_, ?_⟩
  · intro i hi
    exact selectedIndex_spec _ i hi
  · intro e e' hee he
    rw [hsel e e' he, hsel d d' h, hee]

/-- Witness for C3: on the fixture decision the override rewrites the
LLM-chosen index 0 to index 1 — the first of the two 0.9-confidence
hypotheses — and the theorem applies. -/
theorem c3_deterministic_selection_witness :
    decisionSelected fixOut3 =
      some (selectedIndex (fixDecision3.hypotheses.getD [])) ∧
    selectedIndex fixHyps = 1 :=
  ⟨(c3_deterministic_selection fixDecision3 fixOut3 (by rfl)).1, by decide⟩

/-- Lookup distributes over append when the key is found on the left. -/
theorem stepsGet_append_left (l l' : List (String × StepExecutionState))
    (sid : String) (st : StepExecutionState)
    (h : stepsGet l sid = some st) : stepsGet (l ++ l') sid = some st := by
  induction l with
  | nil => cases h
  | cons p rest ih =>
      obtain ⟨k, v⟩ := p
      by_cases hk : k = sid
      · rw [stepsGet, if_pos hk] at h
        cases h
        simp [stepsGet, hk]
      · rw [stepsGet, if_neg hk] at h
        simpa [stepsGet, hk] using ih h

/-- Appending an entry under a different key does not change lookup. -/
theorem stepsGet_append_single_ne (l : List (String × StepExecutionState))
    (k : String) (v : StepExecutionState) (sid' : String) (e : sid' ≠ k) :
    stepsGet (l ++ [(k, v)]) sid' = stepsGet l sid' := by
  induction l with
  | nil =>
      have : ¬ k = sid' := fun hc => e hc.symm
      simp [stepsGet, this]
  | cons p rest ih =>
      obtain ⟨k', v'⟩ := p
      by_cases hk : k' = sid'
      · simp [stepsGet, hk]
      · simp [stepsGet, hk, ih]

/-- The steps of an ensured context: unchanged, or with one appended default
state (whose `retry_count` is 0). -/
theorem ensure_steps_cases (ctx : GraphContext) (sid : String) :
    (ctx.ensureExecutionStep sid).steps = ctx.steps ∨
    ∃ t, (ctx.ensureExecutionStep sid).steps =
      ctx.steps ++ [(sid, { id := sid, text := t })] := by
  unfold GraphContext.ensureExecutionStep
  split
  · exact Or.inl rfl
  · exact Or.inr ⟨_, rfl⟩

/-- Ensuring one key leaves lookups of other keys unchanged. -/
theorem ensure_lookup_ne (ctx : GraphContext) (sid sid' : String)
    (e : sid' ≠ sid) :
    stepsGet (ctx.ensureExecutionStep sid).steps sid' = stepsGet ctx.steps sid' := by
  rcases ensure_steps_cases ctx sid with hc | ⟨t, hc⟩
  · rw [hc]
  · rw [hc]
    exact stepsGet_append_single_ne _ _ _ _ e

/-- Lookups present before an ensure are unchanged by it. -/
theorem ensure_lookup_present (ctx : GraphContext) (sid sid' : String)
    (st : StepExecutionState) (h : stepsGet ctx.steps sid' = some st) :
    stepsGet (ctx.ensureExecutionStep sid).steps sid' = some st := by
  rcases ensure_steps_cases ctx sid with hc | ⟨t, hc⟩
  · rw [hc]
    exact h
  · rw [hc]
    exact stepsGet_append_left _ _ _ _ h

/-- Every entry of an ensured context's steps is an original entry or the
appended default (with `retry_count = 0`). -/
theorem ensure_mem_retry (ctx : GraphContext) (sid : String)
    (p : String × StepExecutionState)
    (hp : p ∈ (ctx.ensureExecutionStep sid).steps) :
    (∃ q ∈ ctx.steps, p.2.retryCount = q.2.retryCount) ∨ p.2.retryCount = 0 := by
  rcases ensure_steps_cases ctx sid with hc | ⟨t, hc⟩
  · rw [hc] at hp
    exact Or.inl ⟨p, hp, rfl⟩
  · rw [hc] at hp
    rcases List.mem_append.mp hp with hl | hr
    · exact Or.inl ⟨p, hl, rfl⟩
    · rcases List.mem_singleton.mp hr with rfl
      exact Or.inr rfl

/-- `set_expected_stages` under a different key does not change lookup. -/
theorem setExpectedStages_lookup_ne (ctx : GraphContext) (sid : String)
    (stages : StageMap) (sid' : String) (e : sid' ≠ sid) :
    stepsGet (ctx.setExpectedStages sid stages).steps sid' =
      stepsGet ctx.steps sid' := by
  unfold GraphContext.setExpectedStages
  show stepsGet (stepsUpdate _ sid _) sid' = _
  rw [stepsGet_update_ne _ _ _ _ e, ensure_lookup_ne ctx sid sid' e]

/-- Every entry of the `set_expected_stages` result keeps the `retry_count`
of an original entry, or is the freshly ensured default. -/
theorem setExpectedStages_mem_retry (c : GraphContext) (sid : String)
    (stages : StageMap) (p : String × StepExecutionState)
    (hp : p ∈ (c.setExpectedStages sid stages).steps) :
    (∃ q ∈ c.steps, p.2.retryCount = q.2.retryCount) ∨ p.2.retryCount = 0 := by
  unfold GraphContext.setExpectedStages at hp
  rcases mem_stepsUpdate _ _ _ _ hp with hin | ⟨st, hst, rfl⟩
  · exact ensure_mem_retry c sid p hin
  · rcases ensure_mem_retry c sid (sid, st) (stepsGet_mem _ _ _ hst) with h1 | h1
    · exact Or.inl h1
    · exact Or.inr h1

/-- Lookup after `mark_step_completed`: the key's state gets its `completed`
flag set; other keys are unchanged. -/
theorem markStepCompleted_lookup (ctx : GraphContext) (sid sid' : String) :
    (ctx.markStepCompleted sid).getExecutionStep sid' =
      if sid' = sid then
        (ctx.getExecutionStep sid').map (fun st => { st with completed := true })
      else ctx.getExecutionStep sid' := by
  unfold GraphContext.markStepCompleted
  split
  · rename_i hnone
    by_cases e : sid' = sid
    · subst e
      rw [if_pos rfl]
      simp only [GraphContext.getExecutionStep]
      rw [hnone]
      exact rfl
    · rw [if_neg e]
  · rename_i st hsome
    by_cases e : sid' = sid
    · subst e
      rw [if_pos rfl]
      show stepsGet (stepsUpdate ctx.steps sid' _) sid' = _
      rw [stepsGet_update_self]
      exact rfl
    · rw [if_neg e]
      show stepsGet (stepsUpdate ctx.steps sid _) sid' = _
      exact stepsGet_update_ne _ _ _ _ e

/-- `mark_step_completed` keeps every entry's `retry_count`. -/
theorem markStepCompleted_mem_retry (ctx : GraphContext) (sid : String)
    (p : String × StepExecutionState)
    (hp : p ∈ (ctx.markStepCompleted sid).steps) :
    ∃ q ∈ ctx.steps, p.2.retryCount = q.2.retryCount := by
  unfold GraphContext.markStepCompleted at hp
  split at hp
  · exact ⟨p, hp, rfl⟩
  · simp only [GraphContext.appendHistoryEvent] at hp
    rcases mem_stepsUpdate _ _ _ _ hp with hin | ⟨st, hst, rfl⟩
    · exact ⟨p, hin, rfl⟩
    · exact ⟨(sid, st), stepsGet_mem _ _ _ hst, rfl⟩

/-- `record_reasoner_decision` under a different key does not change lookup. -/
theorem recordReasonerDecision_lookup_ne (ctx : GraphContext) (sid : String)
    (d : Decision) (sid' : String) (e : sid' ≠ sid) :
    stepsGet (ctx.recordReasonerDecision sid d).steps sid' =
      stepsGet ctx.steps sid' := by
  simp only [GraphContext.recordReasonerDecision]
  split
  · split
    · split
      · show stepsGet (stepsUpdate _ sid _) sid' = _
        rw [stepsGet_update_ne _ _ _ _ e,
          setExpectedStages_lookup_ne _ _ _ _ e]
        show stepsGet (stepsUpdate _ sid _) sid' = _
        rw [stepsGet_update_ne _ _ _ _ e, ensure_lookup_ne ctx sid sid' e]
      · rw [setExpectedStages_lookup_ne _ _ _ _ e]
        show stepsGet (stepsUpdate _ sid _) sid' = _
        rw [stepsGet_update_ne _ _ _ _ e, ensure_lookup_ne ctx sid sid' e]
    · rw [setExpectedStages_lookup_ne _ _ _ _ e]
      show stepsGet (stepsUpdate _ sid _) sid' = _
      rw [stepsGet_update_ne _ _ _ _ e, ensure_lookup_ne ctx sid sid' e]
  · rw [setExpectedStages_lookup_ne _ _ _ _ e]
    show stepsGet (stepsUpdate _ sid _) sid' = _
    rw [stepsGet_update_ne _ _ _ _ e, ensure_lookup_ne ctx sid sid' e]

/-- `record_reasoner_decision` keeps the retry-relevant fields
(`retry_count`, `completed_stages`, `raw_output`, `validation_result`) of an
existing state for its own key. -/
theorem recordReasonerDecision_core_self (ctx : GraphContext) (sid : String)
    (d : Decision) (st : StepExecutionState)
    (h : stepsGet ctx.steps sid = some st) :
    ∃ st', stepsGet (ctx.recordReasonerDecision sid d).steps sid = some st' ∧
      st'.retryCount = st.retryCount ∧
      st'.completedStages = st.completedStages ∧
      st'.rawOutput = st.rawOutput ∧
      st'.validationResult = st.validationResult := by
  have h0 : stepsGet (ctx.ensureExecutionStep sid).steps sid = some st := by
    rw [ensure_eq_of_some h]
    exact h
  have h2 : stepsGet (stepsUpdate (ctx.ensureExecutionStep sid).steps sid
      (fun s => { s with decision := some d })) sid =
      some { st with decision := some d } :=
    stepsGet_update_of_some _ _ _ _ _ h0 rfl
  simp only [GraphContext.recordReasonerDecision]
  split
  · split
    · split
      · rename_i hyp hget
        refine ⟨{ st with
            decision := some d,
            expectedStages :=
              { dataFetch := true
                processing := d.needsPostprocessing.getD false
                validation := d.needsValidation.getD true },
            hypothesis := some hyp }, ?_, rfl, rfl, rfl, rfl⟩
        show stepsGet (stepsUpdate _ sid _) sid = _
        apply stepsGet_update_of_some
        · apply setExpectedStages_lookup
          · exact h2
          · rfl
        · rfl
      · refine ⟨{ st with
            decision := some d,
            expectedStages :=
              { dataFetch := true
                processing := d.needsPostprocessing.getD false
                validation := d.needsValidation.getD true } }, ?_, rfl, rfl, rfl, rfl⟩
        show stepsGet _ sid = _
        apply setExpectedStages_lookup
        · exact h2
        · rfl
    · refine ⟨{ st with
          decision := some d,
          expectedStages :=
            { dataFetch := true
              processing := d.needsPostprocessing.getD false
              validation := d.needsValidation.getD true } }, ?_, rfl, rfl, rfl, rfl⟩
      show stepsGet _ sid = _
      apply setExpectedStages_lookup
      · exact h2
      · rfl
  · refine ⟨{ st with
        decision := some d,
        expectedStages :=
          { dataFetch := true
            processing := d.needsPostprocessing.getD false
            validation := d.needsValidation.getD true } }, ?_, rfl, rfl, rfl, rfl⟩
    show stepsGet _ sid = _
    apply setExpectedStages_lookup
    · exact h2
    · rfl

/-- Every entry after `record_reasoner_decision` keeps the `retry_count` of
an original entry or is a fresh default. -/
theorem recordReasonerDecision_retry_mem (ctx : GraphContext) (sid : String)
    (d : Decision) (p : String × StepExecutionState)
    (hp : p ∈ (ctx.recordReasonerDecision sid d).steps) :
    (∃ q ∈ ctx.steps, p.2.retryCount = q.2.retryCount) ∨ p.2.retryCount = 0 := by
  have hctx2 : ∀ (r : String × StepExecutionState),
      r ∈ stepsUpdate (ctx.ensureExecutionStep sid).steps sid
        (fun s => { s with decision := some d }) →
      (∃ q ∈ ctx.steps, r.2.retryCount = q.2.retryCount) ∨ r.2.retryCount = 0 := by
    intro r hr
    rcases mem_stepsUpdate _ _ _ _ hr with hin | ⟨st, hst, rfl⟩
    · exact ensure_mem_retry ctx sid r hin
    · exact ensure_mem_retry ctx sid (sid, st) (stepsGet_mem _ _ _ hst)
  have hctx3 : ∀ (r : String × StepExecutionState),
      r ∈ (GraphContext.setExpectedStages
        { ctx.ensureExecutionStep sid with
          steps := stepsUpdate (ctx.ensureExecutionStep sid).steps sid
            (fun s => { s with decision := some d }) } sid
        { dataFetch := true
          processing := d.needsPostprocessing.getD false
          validation := d.needsValidation.getD true }).steps →
      (∃ q ∈ ctx.steps, r.2.retryCount = q.2.retryCount) ∨ r.2.retryCount = 0 := by
    intro r hr
    rcases setExpectedStages_mem_retry _ _ _ _ hr with ⟨q, hq, hqr⟩ | h0
    · rcases hctx2 q hq with ⟨q', hq', hq'r⟩ | h0
      · exact Or.inl ⟨q', hq', hqr.trans hq'r⟩
      · exact Or.inr (hqr.trans h0)
    · exact Or.inr h0
  simp only [GraphContext.recordReasonerDecision] at hp
  split at hp
  · split at hp
    · split at hp
      · rcases mem_stepsUpdate _ _ _ _ hp with hin | ⟨st, hst, rfl⟩
        · exact hctx3 p hin
        · exact hctx3 (sid, st) (stepsGet_mem _ _ _ hst)
      · exact hctx3 p hp
    · exact hctx3 p hp
  · exact hctx3 p hp

/-- The shapes the reasoner node can produce, with the branch conditions. -/
theorem reasonerNode_cases (ctx : GraphContext) (call : ReasonerCall) :
    (ctx.currentStepId = Option.none ∧ ctx.reasonerNode call = ctx) ∨
    (∃ sid, ctx.currentStepId = some sid ∧
      ctx.isStageCompleted sid "validation" = true ∧
      ctx.readStepValid sid = false ∧ ctx.readStepRetry sid < 2 ∧
      ctx.reasonerNode call =
        { ctx with steps := stepsUpdate ctx.steps sid StepExecutionState.resetForRetry }) ∨
    (∃ sid, ctx.currentStepId = some sid ∧
      ctx.isStageCompleted sid "validation" = true ∧
      ctx.readStepValid sid = false ∧ ¬ ctx.readStepRetry sid < 2 ∧
      ctx.reasonerNode call = ctx.markStepCompleted sid) ∨
    (∃ sid, ctx.currentStepId = some sid ∧
      ctx.reasonerNode call = ctx.reasonerMain sid call ∧
      (ctx.isStageCompleted sid "validation" = false ∨
        ctx.readStepValid sid = true)) := by
  unfold GraphContext.reasonerNode
  split
  · rename_i hcur
    exact Or.inl ⟨hcur, rfl⟩
  · rename_i sid hcur
    split
    · rename_i hstage
      split
      · rename_i hcond
        rw [Bool.and_eq_true, Bool.not_eq_true', decide_eq_true_iff] at hcond
        exact Or.inr (Or.inl ⟨sid, hcur, hstage, hcond.1, hcond.2, rfl⟩)
      · split
        · rename_i hcond hval
          rw [Bool.not_eq_true'] at hval
          rw [Bool.and_eq_true, Bool.not_eq_true', decide_eq_true_iff,
            not_and] at hcond
          exact Or.inr (Or.inr (Or.inl ⟨sid, hcur, hstage, hval,
            hcond hval, rfl⟩))
        · rename_i hcond hval
          rw [Bool.not_eq_true', Bool.not_eq_false] at hval
          exact Or.inr (Or.inr (Or.inr ⟨sid, hcur, rfl, Or.inr hval⟩))
    · rename_i hstage
      have : ctx.isStageCompleted sid "validation" = false := by
        cases hv : ctx.isStageCompleted sid "validation"
        · rfl
        · exact absurd hv hstage
      exact Or.inr (Or.inr (Or.inr ⟨sid, hcur, rfl, Or.inl this⟩))

/-- The shapes the non-retry part of the reasoner node can produce. -/
theorem reasonerMain_cases (ctx : GraphContext) (sid : String)
    (call : ReasonerCall) :
    ctx.reasonerMain sid call = ctx.markStepCompleted sid ∨
    ctx.reasonerMain sid call = ctx ∨
    ∃ d, ctx.reasonerMain sid call = ctx.recordReasonerDecision sid d := by
  unfold GraphContext.reasonerMain
  split
  · exact Or.inl rfl
  · split
    · exact Or.inr (Or.inl rfl)
    · cases call with
      | okDecision d => exact Or.inr (Or.inr ⟨d, rfl⟩)
      | errorResult msg => exact Or.inr (Or.inl rfl)
      | raises msg => exact Or.inr (Or.inl rfl)

/-- C5: the reasoner node keeps `retry_count ≤ MAX_RETRIES` (hardcoded 2,
the spec default) for every step; for the current step whose validation has
completed invalid it increments `retry_count` only below the bound — and
that same transition resets every completed stage to false and clears
`raw_output` and `validation_result` — while at the bound it marks the step
completed without touching `retry_count`; and no other transition of the
node changes any step's `retry_count`. -/
theorem c5_retry_bound (ctx : GraphContext) (call : ReasonerCall) :
    ((∀ p ∈ ctx.steps, p.2.retryCount ≤ maxRetries) →
      ∀ p ∈ (ctx.reasonerNode call).steps, p.2.retryCount ≤ maxRetries) ∧
    (∀ sid st, ctx.currentStepId = some sid →
      ctx.getExecutionStep sid = some st →
      ctx.isStageCompleted sid "validation" = true →
      st.validRead = false →
      ((st.retryCount < maxRetries →
        (ctx.reasonerNode call).getExecutionStep sid =
          some st.resetForRetry) ∧
       (maxRetries ≤ st.retryCount →
        ∃ st', (ctx.reasonerNode call).getExecutionStep sid = some st' ∧
          st'.completed = true ∧ st'.retryCount = st.retryCount ∧
          st'.completedStages = st.completedStages ∧
          st'.rawOutput = st.rawOutput ∧
          st'.validationResult = st.validationResult))) ∧
    (∀ sid st st', ctx.getExecutionStep sid = some st →
      (ctx.reasonerNode call).getExecutionStep sid = some st' →
      st'.retryCount ≠ st.retryCount →
      ctx.currentStepId = some sid ∧
      ctx.isStageCompleted sid "validation" = true ∧
      st.validRead = false ∧ st.retryCount < maxRetries ∧
      st'.retryCount = st.retryCount + 1 ∧
      st'.completedStages = StageMap.allFalse ∧
      st'.rawOutput = Value.none ∧ st'.validationResult = Option.none) := by
  refine ⟨?_, ?_, ?_⟩
  · intro hb p hp
    rcases reasonerNode_cases ctx call with ⟨hc, heq⟩ |
      ⟨sid, hc, hs2, hv2, hr2, heq⟩ | ⟨sid, hc, hs2, hv2, hr2, heq⟩ |
      ⟨sid, hc, heq, hside⟩
    · rw [heq] at hp
      exact hb p hp
    · rw [heq] at hp
      have hp' : p ∈ stepsUpdate ctx.steps sid StepExecutionState.resetForRetry := hp
      rcases mem_stepsUpdate _ _ _ _ hp' with hin | ⟨st, hst, rfl⟩
      · exact hb p hin
      · have hre : ctx.readStepRetry sid = st.retryCount := by
          unfold GraphContext.readStepRetry
          rw [show ctx.getExecutionStep sid = some st from hst]
        rw [hre] at hr2
        show st.retryCount + 1 ≤ maxRetries
        unfold maxRetries
        omega
    · rw [heq] at hp
      obtain ⟨q, hq, hqr⟩ := markStepCompleted_mem_retry ctx sid p hp
      rw [hqr]
      exact hb q hq
    · rw [heq] at hp
      rcases reasonerMain_cases ctx sid call with hm | hm | ⟨d, hm⟩
      · rw [hm] at hp
        obtain ⟨q, hq, hqr⟩ := markStepCompleted_mem_retry ctx sid p hp
        rw [hqr]
        exact hb q hq
      · rw [hm] at hp
        exact hb p hp
      · rw [hm] at hp
        rcases recordReasonerDecision_retry_mem ctx sid d p hp with ⟨q, hq, hqr⟩ | h0
        · rw [hqr]
          exact hb q hq
        · rw [h0]
          exact Nat.zero_le _
  · intro sid st hcur hst hstage hval
    have hvalid : ctx.readStepValid sid = false := by
      unfold GraphContext.readStepValid
      rw [hst]
      exact hval
    have hretryeq : ctx.readStepRetry sid = st.retryCount := by
      unfold GraphContext.readStepRetry
      rw [hst]
    constructor
    · intro hlt
      rcases reasonerNode_cases ctx call with ⟨hc, _⟩ |
        ⟨sid2, hc, hs2, hv2, hr2, heq⟩ | ⟨sid2, hc, hs2, hv2, hr2, heq⟩ |
        ⟨sid2, hc, heq, hside⟩
      · rw [hcur] at hc
        cases hc
      · rw [hcur] at hc
        injection hc with hcid
        subst hcid
        rw [heq]
        show stepsGet (stepsUpdate ctx.steps sid _) sid = _
        exact stepsGet_update_of_some _ _ _ _ _ hst rfl
      · rw [hcur] at hc
        injection hc with hcid
        subst hcid
        rw [hretryeq] at hr2
        exact absurd hlt hr2
      · rw [hcur] at hc
        injection hc with hcid
        subst hcid
        rcases hside with hs | hv
        · rw [hstage] at hs
          cases hs
        · rw [hvalid] at hv
          cases hv
    · intro hge
      rcases reasonerNode_cases ctx call with ⟨hc, _⟩ |
        ⟨sid2, hc, hs2, hv2, hr2, heq⟩ | ⟨sid2, hc, hs2, hv2, hr2, heq⟩ |
        ⟨sid2, hc, heq, hside⟩
      · rw [hcur] at hc
        cases hc
      · rw [hcur] at hc
        injection hc with hcid
        subst hcid
        rw [hretryeq] at hr2
        unfold maxRetries at hge
        exact absurd hr2 (by omega)
      · rw [hcur] at hc
        injection hc with hcid
        subst hcid
        rw [heq, markStepCompleted_lookup, if_pos rfl, hst]
        exact ⟨{ st with completed := true }, rfl, rfl, rfl, rfl, rfl, rfl⟩
      · rw [hcur] at hc
        injection hc with hcid
        subst hcid
        rcases hside with hs | hv
        · rw [hstage] at hs
          cases hs
        · rw [hvalid] at hv
          cases hv
  · intro sid st st' hst hst' hne
    rcases reasonerNode_cases ctx call with ⟨hc, heq⟩ |
      ⟨sid2, hc, hs2, hv2, hr2, heq⟩ | ⟨sid2, hc, hs2, hv2, hr2, heq⟩ |
      ⟨sid2, hc, heq, hside⟩
    · rw [heq, hst] at hst'
      injection hst' with he
      exact absurd (by rw [he]) hne
    · by_cases e : sid = sid2
      · subst e
        rw [heq] at hst'
        have hst'' : stepsGet (stepsUpdate ctx.steps sid
            StepExecutionState.resetForRetry) sid = some st' := hst'
        rw [stepsGet_update_of_some _ _ _ _ _ hst rfl] at hst''
        injection hst'' with he
        subst he
        have hvr : st.validRead = false := by
          unfold GraphContext.readStepValid at hv2
          rw [hst] at hv2
          exact hv2
        have hrr : st.retryCount < 2 := by
          unfold GraphContext.readStepRetry at hr2
          rw [hst] at hr2
          exact hr2
        exact ⟨hc, hs2, hvr, hrr, rfl, rfl, rfl, rfl⟩
      · rw [heq] at hst'
        have hst'' : stepsGet (stepsUpdate ctx.steps sid2
            StepExecutionState.resetForRetry) sid = some st' := hst'
        rw [stepsGet_update_ne _ _ _ _ e] at hst''
        have hst0 : stepsGet ctx.steps sid = some st := hst
        rw [hst0] at hst''
        injection hst'' with he
        exact absurd (by rw [he]) hne
    · rw [heq, markStepCompleted_lookup] at hst'
      by_cases e : sid = sid2
      · rw [if_pos e, hst] at hst'
        simp only [Option.map_some'] at hst'
        injection hst' with he
        exact absurd (by rw [← he]) hne
      · rw [if_neg e, hst] at hst'
        injection hst' with he
        exact absurd (by rw [he]) hne
    · rw [heq] at hst'
      rcases reasonerMain_cases ctx sid2 call with hm | hm | ⟨d, hm⟩
      · rw [hm, markStepCompleted_lookup] at hst'
        by_cases e : sid = sid2
        · rw [if_pos e, hst] at hst'
          simp only [Option.map_some'] at hst'
          injection hst' with he
          exact absurd (by rw [← he]) hne
        · rw [if_neg e, hst] at hst'
          injection hst' with he
          exact absurd (by rw [he]) hne
      · rw [hm, hst] at hst'
        injection hst' with he
        exact absurd (by rw [he]) hne
      · rw [hm] at hst'
        by_cases e : sid = sid2
        · subst e
          obtain ⟨st'', hlook, hr, _, _, _⟩ :=
            recordReasonerDecision_core_self ctx sid d st hst
          have hst'' : stepsGet (ctx.recordReasonerDecision sid d).steps sid =
            some st' := hst'
          rw [hlook] at hst''
          injection hst'' with he
          exact absurd (by rw [← he, hr]) hne
        · have hst'' : stepsGet (ctx.recordReasonerDecision sid2 d).steps sid =
            some st' := hst'
          rw [recordReasonerDecision_lookup_ne _ _ _ _ e] at hst''
          have hst0 : stepsGet ctx.steps sid = some st := hst
          rw [hst0] at hst''
          injection hst'' with he
          exact absurd (by rw [he]) hne

/-- Witness for C5: on the mid-retry fixture the node performs the retry
reset — `retry_count` becomes 1, stages and outputs are cleared. -/
theorem c5_retry_bound_witness :
    (fixCtx5.reasonerNode (ReasonerCall.errorResult "boom")).getExecutionStep
      "q1" = some fixRetryStep.resetForRetry ∧
    fixRetryStep.resetForRetry.retryCount = 1 ∧
    fixRetryStep.resetForRetry.completedStages = StageMap.allFalse ∧
    fixRetryStep.resetForRetry.rawOutput = Value.none ∧
    fixRetryStep.resetForRetry.validationResult = Option.none := by
  have h := ((c5_retry_bound fixCtx5 (ReasonerCall.errorResult "boom")).2.1
    "q1" fixRetryStep (by rfl) (by rfl) (by rfl) (by rfl)).1 (by decide)
  exact ⟨h, rfl, rfl, rfl, rfl⟩

/-- `fillAgentField` changes no field other than `agent`. -/
theorem fillAgentField_frame (r : AgentResultE) (n : String) :
    (fillAgentField r n).status = r.status ∧
    (fillAgentField r n).stage = r.stage ∧
    (fillAgentField r n).entityType = r.entityType ∧
    (fillAgentField r n).operation = r.operation ∧
    (fillAgentField r n).inputParams = r.inputParams ∧
    (fillAgentField r n).output = r.output ∧
    (fillAgentField r n).summary = r.summary ∧
    (fillAgentField r n).metadata = r.metadata ∧
    (fillAgentField r n).error = r.error ∧
    (fillAgentField r n).thinking = r.thinking ∧
    (fillAgentField r n).prompt = r.prompt ∧
    (fillAgentField r n).rawResponse = r.rawResponse ∧
    (fillAgentField r n).tokensUsed = r.tokensUsed := by
  unfold fillAgentField
  split <;>
    exact ⟨rfl, rfl, rfl, rfl, rfl, rfl, rfl, rfl, rfl, rfl, rfl, rfl, rfl⟩

/-- `fillAgentField` fills `agent` only when it is `None`. -/
theorem fillAgentField_agent (r : AgentResultE) (n : String) :
    (r.agent = Option.none → (fillAgentField r n).agent = some n) ∧
    (r.agent ≠ Option.none → (fillAgentField r n).agent = r.agent) := by
  unfold fillAgentField
  constructor
  · intro h
    rw [if_pos (by rw [h]; rfl)]
  · intro h
    rw [if_neg (fun hc => h (Option.isNone_iff_eq_none.mp hc))]

/-- `fillOperationField` changes no field other than `operation`. -/
theorem fillOperationField_frame (r : AgentResultE) (op : String) :
    (fillOperationField r op).status = r.status ∧
    (fillOperationField r op).stage = r.stage ∧
    (fillOperationField r op).entityType = r.entityType ∧
    (fillOperationField r op).agent = r.agent ∧
    (fillOperationField r op).inputParams = r.inputParams ∧
    (fillOperationField r op).output = r.output ∧
    (fillOperationField r op).summary = r.summary ∧
    (fillOperationField r op).metadata = r.metadata ∧
    (fillOperationField r op).error = r.error ∧
    (fillOperationField r op).thinking = r.thinking ∧
    (fillOperationField r op).prompt = r.prompt ∧
    (fillOperationField r op).rawResponse = r.rawResponse ∧
    (fillOperationField r op).tokensUsed = r.tokensUsed := by
  unfold fillOperationField
  split <;>
    exact ⟨rfl, rfl, rfl, rfl, rfl, rfl, rfl, rfl, rfl, rfl, rfl, rfl, rfl⟩

/-- `fillOperationField` fills `operation` only when it is `None`. -/
theorem fillOperationField_operation (r : AgentResultE) (op : String) :
    (r.operation = Option.none → (fillOperationField r op).operation = some op) ∧
    (r.operation ≠ Option.none → (fillOperationField r op).operation = r.operation) := by
  unfold fillOperationField
  constructor
  · intro h
    rw [if_pos (by rw [h]; rfl)]
  · intro h
    rw [if_neg (fun hc => h (Option.isNone_iff_eq_none.mp hc))]

/-- `setdefault` leaves the dict alone when the key is present and appends
the pair when it is absent. -/
theorem metaSetdefault_eq (m : List (String × Value)) (k : String) (v : Value) :
    (alistGet m k ≠ Option.none → metaSetdefault m k v = m) ∧
    (alistGet m k = Option.none → metaSetdefault m k v = m ++ [(k, v)]) := by
  unfold metaSetdefault
  constructor
  · intro h
    split
    · rfl
    · rename_i heq
      exact absurd heq h
  · intro h
    split
    · rename_i heq
      rw [h] at heq
      cases heq
    · rfl

/-- Counterexample to C1: inside the `try`, the wrapper call passes its two
arguments positionally against `error(message, stage, ...)`, so the result
has `error = "operation_execution"` (the lifecycle stage) and `stage` equal
to the formatted failure message — the two fields the claim ascribes are
swapped; and an unknown operation name raises `KeyError` outside the `try`,
crossing the dispatch boundary instead of being wrapped. -/
theorem c1_counterexample :
    (executeOperation fixAgent fixRaisingBehavior "list_books" [] Value.none).1 =
      Except.ok (AgentResultE.mkError "operation_execution"
        (opFailMsg "list_books" "KeyError: \x27author\x27")) ∧
    (AgentResultE.mkError "operation_execution"
        (opFailMsg "list_books" "KeyError: \x27author\x27")).error =
      some "operation_execution" ∧
    (AgentResultE.mkError "operation_execution"
        (opFailMsg "list_books" "KeyError: \x27author\x27")).stage =
      some (opFailMsg "list_books" "KeyError: \x27author\x27") ∧
    opFailMsg "list_books" "KeyError: \x27author\x27" ≠ "operation_execution" ∧
    (executeOperation fixAgent fixRaisingBehavior "dynamic_query" [] Value.none).1 =
      Except.error (unknownOpMsg "dynamic_query" "BooksLibraryAgent") := by
  refine ⟨rfl, rfl, rfl, ?_, rfl⟩
  decide

/-- C1 (amended): exceptions raised while RUNNING a resolved operation never
cross the dispatch boundary — they are wrapped into a status-`error`
`AgentResult` — but the wrapper's fields are swapped: `error` holds the
constant `"operation_execution"` and `stage` holds the failure message; an
UNKNOWN operation name instead raises `KeyError` out of `execute_operation`;
and a normally returning operation also yields a value, never an
exception. -/
theorem c1_execute_operation_errors (agent : AgentE)
    (behavior : String → List (String × Value) → RunBehavior)
    (operation : String) (params : List (String × Value)) (elapsed : Value) :
    (∀ msg, operation ∈ agent.operations →
      behavior operation params = RunBehavior.raises msg →
      (executeOperation agent behavior operation params elapsed).1 =
        Except.ok (AgentResultE.mkError "operation_execution"
          (opFailMsg operation msg)) ∧
      (AgentResultE.mkError "operation_execution"
        (opFailMsg operation msg)).status = "error" ∧
      (AgentResultE.mkError "operation_execution"
        (opFailMsg operation msg)).error = some "operation_execution" ∧
      (AgentResultE.mkError "operation_execution"
        (opFailMsg operation msg)).stage = some (opFailMsg operation msg)) ∧
    (operation ∉ agent.operations →
      (executeOperation agent behavior operation params elapsed).1 =
        Except.error (unknownOpMsg operation agent.name)) ∧
    (∀ r, operation ∈ agent.operations →
      behavior operation params = RunBehavior.returns r →
      ∃ r', (executeOperation agent behavior operation params elapsed).1 =
        Except.ok r') := by
  refine ⟨?_, ?_, ?_⟩
  · intro msg hmem hbeh
    unfold executeOperation
    rw [if_pos hmem, hbeh]
    exact ⟨rfl, rfl, rfl, rfl⟩
  · intro hmem
    unfold executeOperation
    rw [if_neg hmem]
  · intro r hmem hbeh
    unfold executeOperation
    rw [if_pos hmem, hbeh]
    exact ⟨_, rfl⟩

/-- Witness for C1 (amended): the missing-parameter `KeyError` of
`list_books` is wrapped into an ok-carried error envelope. -/
theorem c1_execute_operation_errors_witness :
    (executeOperation fixAgent fixRaisingBehavior "list_books" [] Value.none).1 =
      Except.ok (AgentResultE.mkError "operation_execution"
        (opFailMsg "list_books" "KeyError: \x27author\x27")) :=
  ((c1_execute_operation_errors fixAgent fixRaisingBehavior "list_books" []
      Value.none).1 "KeyError: \x27author\x27" (by decide) rfl).1

/-- Counterexample to C6: `author` is marked required in the
`params_schema` of `list_books`, yet dispatching the operation with `author`
absent from the params still runs the operation body (second component
`true`); the error envelope that comes back is the wrapped in-body
`KeyError`, not a schema-validation result. -/
theorem c6_counterexample :
    ("author", true) ∈ listBooksParamsSchema ∧
    alistGet ([] : List (String × Value)) "author" = Option.none ∧
    fixBehavior "list_books" [] =
      listBooksRun (some (fun _ _ => [fixRow])) [] ∧
    (executeOperation fixAgent fixBehavior "list_books" [] Value.none).2 = true ∧
    ∃ r, (executeOperation fixAgent fixBehavior "list_books" [] Value.none).1 =
      Except.ok r ∧ r.status = "error" := by
  exact ⟨by decide, rfl, rfl, rfl, ⟨_, rfl, rfl⟩⟩

/-- C6 (amended): `execute_operation` performs no `params_schema`
validation — once the operation name resolves, the body is invoked whatever
the params are; for `list_books` a missing required `author` makes the body
itself raise `KeyError`, which the dispatcher wraps into a status-`error`
envelope (with the C1 field swap). -/
theorem c6_no_schema_validation (agent : AgentE)
    (behavior : String → List (String × Value) → RunBehavior)
    (operation : String) (params : List (String × Value)) (elapsed : Value)
    (hmem : operation ∈ agent.operations) :
    (executeOperation agent behavior operation params elapsed).2 = true ∧
    (∀ engine, alistGet params "author" = Option.none →
      behavior operation params = listBooksRun (some engine) params →
      (executeOperation agent behavior operation params elapsed).1 =
        Except.ok (AgentResultE.mkError "operation_execution"
          (opFailMsg operation "KeyError: \x27author\x27")) ∧
      (AgentResultE.mkError "operation_execution"
        (opFailMsg operation "KeyError: \x27author\x27")).status = "error") := by
  constructor
  · unfold executeOperation
    rw [if_pos hmem]
    cases hb : behavior operation params <;> rfl
  · intro engine hnone hbeh
    have hrun : behavior operation params =
        RunBehavior.raises "KeyError: \x27author\x27" := by
      rw [hbeh]
      simp [listBooksRun, hnone]
    constructor
    · unfold executeOperation
      rw [if_pos hmem, hrun]
    · rfl

/-- Witness for C6 (amended): dispatching `list_books` with empty params
runs the body. -/
theorem c6_no_schema_validation_witness :
    (executeOperation fixAgent fixBehavior "list_books" [] Value.none).2 = true :=
  (c6_no_schema_validation fixAgent fixBehavior "list_books" [] Value.none
    (by decide)).1

/-- C10: on a successful run, `execute_operation` hands back the
operation's own result with every field unchanged, except that `agent` and
`operation` are filled in only when the operation left them `None` (values
the operation set itself are never overwritten), and `metadata` gains an
`elapsed_s` entry only when that key is absent. -/
theorem c10_success_frame (agent : AgentE)
    (behavior : String → List (String × Value) → RunBehavior)
    (operation : String) (params : List (String × Value)) (elapsed : Value)
    (r : AgentResultE) (hmem : operation ∈ agent.operations)
    (hbeh : behavior operation params = RunBehavior.returns r) :
    ∃ r', (executeOperation agent behavior operation params elapsed).1 =
        Except.ok r' ∧
      r'.status = r.status ∧ r'.stage = r.stage ∧
      r'.entityType = r.entityType ∧ r'.inputParams = r.inputParams ∧
      r'.output = r.output ∧ r'.summary = r.summary ∧
      r'.error = r.error ∧ r'.thinking = r.thinking ∧
      r'.prompt = r.prompt ∧ r'.rawResponse = r.rawResponse ∧
      r'.tokensUsed = r.tokensUsed ∧
      (r.agent ≠ Option.none → r'.agent = r.agent) ∧
      (r.agent = Option.none → r'.agent = some agent.name) ∧
      (r.operation ≠ Option.none → r'.operation = r.operation) ∧
      (r.operation = Option.none → r'.operation = some operation) ∧
      (alistGet r.metadata "elapsed_s" ≠ Option.none →
        r'.metadata = r.metadata) ∧
      (alistGet r.metadata "elapsed_s" = Option.none →
        r'.metadata = r.metadata ++ [("elapsed_s", elapsed)]) := by
  obtain ⟨fa1, fa2, fa3, fa4, fa5, fa6, fa7, fa8, fa9, fa10, fa11, fa12, fa13⟩ :=
    fillAgentField_frame r agent.name
  obtain ⟨fo1, fo2, fo3, fo4, fo5, fo6, fo7, fo8, fo9, fo10, fo11, fo12, fo13⟩ :=
    fillOperationField_frame (fillAgentField r agent.name) operation
  have hmain : (executeOperation agent behavior operation params elapsed).1 =
      Except.ok { fillOperationField (fillAgentField r agent.name) operation with
        metadata := metaSetdefault
          (fillOperationField (fillAgentField r agent.name) operation).metadata
          "elapsed_s" elapsed } := by
    unfold executeOperation
    rw [if_pos hmem, hbeh]
  have hbm : (fillOperationField (fillAgentField r agent.name) operation).metadata
      = r.metadata := fo8.trans fa8
  refine ⟨_, hmain, fo1.trans fa1, fo2.trans fa2, fo3.trans fa3, fo5.trans fa5,
    fo6.trans fa6, fo7.trans fa7, fo9.trans fa9, fo10.trans fa10,
    fo11.trans fa11, fo12.trans fa12, fo13.trans fa13, ?_, ?_, ?_, ?_, ?_, ?_⟩
  · intro h
    exact fo4.trans ((fillAgentField_agent r agent.name).2 h)
  · intro h
    exact fo4.trans ((fillAgentField_agent r agent.name).1 h)
  · intro h
    have h' : (fillAgentField r agent.name).operation ≠ Option.none := by
      rw [fa4]
      exact h
    exact ((fillOperationField_operation _ operation).2 h').trans fa4
  · intro h
    have h' : (fillAgentField r agent.name).operation = Option.none :=
      fa4.trans h
    exact (fillOperationField_operation _ operation).1 h'
  · intro h
    show metaSetdefault
      (fillOperationField (fillAgentField r agent.name) operation).metadata
      "elapsed_s" elapsed = r.metadata
    rw [hbm]
    exact (metaSetdefault_eq _ _ _).1 h
  · intro h
    show metaSetdefault
      (fillOperationField (fillAgentField r agent.name) operation).metadata
      "elapsed_s" elapsed = r.metadata ++ [("elapsed_s", elapsed)]
    rw [hbm]
    exact (metaSetdefault_eq _ _ _).2 h

/-- Witness for C10: a result whose `agent` the operation set itself keeps
it, its `None` `operation` is filled, and `elapsed_s` is appended after the
existing metadata entry. -/
theorem c10_success_frame_witness :
    ∃ r', (executeOperation fixAgent fixReturningBehavior "list_books" []
        (Value.int 1)).1 = Except.ok r' ∧
      r'.agent = some "CustomAgent" ∧
      r'.operation = some "list_books" ∧
      r'.metadata = [("source", Value.str "db"), ("elapsed_s", Value.int 1)] := by
  obtain ⟨r', hok, _, _, _, _, _, _, _, _, _, _, _, hag, _, _, hop, _, hmd⟩ :=
    c10_success_frame fixAgent fixReturningBehavior "list_books" []
      (Value.int 1) fixOpResult (by decide) rfl
  refine ⟨r', hok, ?_, hop rfl, ?_⟩
  · exact (hag (by decide)).trans rfl
  · exact (hmd rfl).trans rfl

/-- Appending a single element makes it the last one. -/
theorem getLast_append_one {α : Type} (l : List α) (a : α) :
    (l ++ [a]).getLast? = some a := by
  induction l with
  | nil => rfl
  | cons x xs ih =>
      cases xs with
      | nil => rfl
      | cons y ys =>
          rw [List.cons_append, List.cons_append, List.getLast?_cons_cons]
          exact ih

/-- Counterexample to C7: on a text carrying two adjacent JSON objects and
no fence, the FIRST BALANCED brace substring parses, yet `from_raw` slices
from the first opening brace to the LAST closing brace, producing a
non-parsing candidate — so `json_answer` stays `None`. -/
theorem c7_counterexample :
    findFenced fixC7Text = Option.none ∧
    fromRawJsonAnswer fixC7Text = Option.none ∧
    firstBalancedBraces fixC7Text = some "\x7b\"a\":1\x7d" ∧
    jsonParse "\x7b\"a\":1\x7d" = some (Json.obj [("a", Json.num 1)]) :=
  ⟨rfl, rfl, rfl, rfl⟩

/-- C7 (amended): when a fenced block exists, its (first) content decides
`json_answer` — a successful parse is stored and a failed parse leaves
`json_answer` `None` even if a brace substring would parse; when no fenced
block exists, the candidate is the slice from the first opening brace to the
LAST closing brace (not the first balanced one), and with no such slice
`json_answer` is `None`. -/
theorem c7_json_answer (text s : String) (j : Json) :
    (findFenced text = some s → jsonParse s = some j →
      fromRawJsonAnswer text = some j) ∧
    (findFenced text = some s → s ≠ "" → jsonParse s = Option.none →
      fromRawJsonAnswer text = Option.none) ∧
    (findFenced text = Option.none → braceSpan text = some s → s ≠ "" →
      fromRawJsonAnswer text = jsonParse s) ∧
    (findFenced text = Option.none → braceSpan text = Option.none →
      fromRawJsonAnswer text = Option.none) := by
  refine ⟨?_, ?_, ?_, ?_⟩
  · intro hf hp
    unfold fromRawJsonAnswer
    rw [hf]
    show (if s = "" then Option.none else jsonParse s) = some j
    by_cases he : s = ""
    · subst he
      rw [show jsonParse "" = (Option.none : Option Json) from rfl] at hp
      cases hp
    · rw [if_neg he]
      exact hp
  · intro hf hne hp
    unfold fromRawJsonAnswer
    rw [hf]
    show (if s = "" then Option.none else jsonParse s) = Option.none
    rw [if_neg hne]
    exact hp
  · intro hf hb hne
    unfold fromRawJsonAnswer
    rw [hf, hb]
    show (if s = "" then Option.none else jsonParse s) = jsonParse s
    rw [if_neg hne]
  · intro hf hb
    unfold fromRawJsonAnswer
    rw [hf, hb]

/-- Witness for C7 (amended): a prose prefix followed by one JSON object
goes through the brace-span branch and parses. -/
theorem c7_json_answer_witness :
    fromRawJsonAnswer fixC7OkText = some (Json.obj [("a", Json.num 1)]) :=
  ((c7_json_answer fixC7OkText "\x7b\"a\": 1\x7d"
      (Json.obj [("a", Json.num 1)])).2.2.1 rfl rfl (by decide)).trans rfl

/-- Counterexample to C8: with the synthesizer agent unavailable, the
fallback stores the last completed step's output RAW — here the integer 7 —
not coerced to the string the claim prescribes. -/
theorem c8_counterexample :
    synthCallFailed SynthCall.noRegistry = true ∧
    (synthesizerNode fixLegacyCtx SynthCall.noRegistry).finalAnswer =
      Value.int 7 ∧
    pyStr (Value.int 7) = "7" ∧
    (synthesizerNode fixLegacyCtx SynthCall.noRegistry).finalAnswer ≠
      Value.str (pyStr (Value.int 7)) := by
  refine ⟨rfl, rfl, rfl, ?_⟩
  intro h
  have h2 : Value.int 7 = Value.str "7" := h
  exact Value.noConfusion h2

/-- C8 (amended): whenever the answer is still open, some step outputs
exist, and the synthesizer agent is unavailable or its call fails, the node
stores the last completed step's output as `final_answer` WITHOUT string
coercion and ends the history with a `synthesizer_fallback_used` event. -/
theorem c8_fallback (ctx : LegacyContext) (call : SynthCall)
    (hq : ctx.finalAnswer = Value.none)
    (houts : legacyStepOutputs ctx.steps ≠ [])
    (hfail : synthCallFailed call = true) :
    (synthesizerNode ctx call).finalAnswer =
      ((legacyStepOutputs ctx.steps).map Prod.snd).getLast?.getD Value.none ∧
    (synthesizerNode ctx call).history.getLast? =
      some { type := "synthesizer_fallback_used"
             stepId := ((legacyStepOutputs ctx.steps).map Prod.fst).getLast? } := by
  have hie : (legacyStepOutputs ctx.steps).isEmpty = false := by
    cases h : legacyStepOutputs ctx.steps with
    | nil => exact absurd h houts
    | cons p l => rfl
  simp only [synthesizerNode]
  rw [hq, if_neg (by decide : ¬((!Value.isNoneVal Value.none) = true)),
    if_neg (show ¬((legacyStepOutputs ctx.steps).isEmpty = true) by
      rw [hie]; decide)]
  split
  · exact ⟨rfl, getLast_append_one _ _⟩
  · exact ⟨rfl, getLast_append_one _ _⟩
  · exact ⟨rfl, getLast_append_one _ _⟩
  · rename_i r
    have hne : r.status ≠ "ok" := of_decide_eq_true hfail
    rw [if_neg hne]
    exact ⟨rfl, getLast_append_one _ _⟩
  · rename_i entries
    have hd : dictStatusOk entries = false := by
      have hfail2 : (!dictStatusOk entries) = true := hfail
      cases hh : dictStatusOk entries
      · rfl
      · rw [hh] at hfail2
        exact absurd hfail2 (by decide)
    rw [if_neg (show ¬(dictStatusOk entries = true) by rw [hd]; decide)]
    exact ⟨rfl, getLast_append_one _ _⟩
  · exact absurd hfail (by decide)

/-- Witness for C8 (amended): the two-step fixture falls back to the raw
integer output of the last step and logs the fallback event. -/
theorem c8_fallback_witness :
    (synthesizerNode fixLegacyCtx SynthCall.noRegistry).finalAnswer =
      ((legacyStepOutputs fixLegacyCtx.steps).map Prod.snd).getLast?.getD
        Value.none ∧
    (synthesizerNode fixLegacyCtx SynthCall.noRegistry).history.getLast? =
      some { type := "synthesizer_fallback_used"
             stepId := ((legacyStepOutputs fixLegacyCtx.steps).map
               Prod.fst).getLast? } :=
  c8_fallback fixLegacyCtx SynthCall.noRegistry rfl (by intro h; cases h) rfl

end CorpSearch
